import Mathlib

/-!
Verification of the identity-reconciliation engine in
`src/services/contactService.ts` (class `ContactService`), backed by the
Prisma data model in `prisma/schema.prisma`.

The store is modelled as a list of `Contact` rows kept in the order the
database scans them for `orderBy: { createdAt: 'asc' }` queries: ascending
`(createdAt, id)`, which is rowid order for an autoincrement table whose
`createdAt` values are assigned at insertion time.  `id` values are assigned
by the store (`nextId`), `createdAt` from a logical clock (`now`).
`updatedAt` is refreshed on every write and read by nothing in the service,
so it is not modelled.

Prisma filter semantics used below:
* a field equality filter `{ email: e }` matches rows whose column equals `e`;
* the empty filter `{}` (produced by `email ? { email } : {}` when the field
  is absent) imposes no constraint, so inside an `OR` list it is a condition
  that every row satisfies;
* `findUnique({ where: { id, deletedAt: null } })` returns the row with that
  id provided it is not soft-deleted;
* `update({ where: { id } })` rewrites exactly the listed fields of the row
  with that id;
* `$transaction(list)` applies the listed updates as one commit.

JavaScript semantics mirrored below: `Array.prototype.sort` is stable and the
service sorts by `createdAt` alone; `new Map(pairs)` keyed by `id` keeps the
first-insertion order of keys (all pairs sharing an id carry the identical
row, ids being unique in the store, so keeping the first pair is faithful);
`Set` iterates in insertion order; a string is falsy exactly when empty, and
the number `0` is falsy.
-/

inductive LinkPrecedence where
  | primary
  | secondary
deriving DecidableEq, Repr

structure Contact where
  id : Nat
  email : Option String
  phoneNumber : Option String
  linkedId : Option Nat
  linkPrecedence : LinkPrecedence
  createdAt : Nat
  deletedAt : Option Nat
deriving DecidableEq, Repr

structure Store where
  contacts : List Contact
  nextId : Nat
  now : Nat
deriving DecidableEq, Repr

/-- Well-formedness of a store reachable through the Prisma schema: ids are
unique, positive and below the autoincrement counter, rows were stamped
before the current clock, and the scan order is ascending `(createdAt, id)`. -/
def Store.WF (s : Store) : Prop :=
  (s.contacts.map (fun c => c.id)).Nodup ∧
  (∀ c ∈ s.contacts, 1 ≤ c.id ∧ c.id < s.nextId ∧ c.createdAt < s.now) ∧
  s.contacts.Pairwise
    (fun a b => a.createdAt < b.createdAt ∨ (a.createdAt = b.createdAt ∧ a.id < b.id))

/-- Data-model invariant: a non-deleted primary row carries no link. -/
def PrimaryRootInv (s : Store) : Prop :=
  ∀ c ∈ s.contacts, c.deletedAt = none → c.linkPrecedence = .primary →
    c.linkedId = none

/-- Data-model invariant: a non-deleted secondary row links to a non-deleted
primary row (chain depth exactly one hop). -/
def OneHopInv (s : Store) : Prop :=
  ∀ c ∈ s.contacts, c.deletedAt = none → c.linkPrecedence = .secondary →
    ∃ p ∈ s.contacts, c.linkedId = some p.id ∧ p.linkPrecedence = .primary ∧
      p.deletedAt = none

instance (s : Store) : Decidable s.WF := by
  unfold Store.WF
  infer_instance

instance (s : Store) : Decidable (PrimaryRootInv s) := by
  unfold PrimaryRootInv
  infer_instance

instance (s : Store) : Decidable (OneHopInv s) := by
  unfold OneHopInv
  infer_instance

/-- Comparison used by every `orderBy: { createdAt: 'asc' }` and by the
`sort((a, b) => a.createdAt.getTime() - b.createdAt.getTime())` call. -/
def createdLE (a b : Contact) : Prop := a.createdAt ≤ b.createdAt

instance : DecidableRel createdLE := fun a b => Nat.decLe a.createdAt b.createdAt

instance : IsTotal Contact createdLE := ⟨fun a b => Nat.le_total a.createdAt b.createdAt⟩

instance : IsTrans Contact createdLE := ⟨fun _ _ _ h1 h2 => Nat.le_trans h1 h2⟩

/-- The controller trims and nulls empty strings, and every use of the two
fields inside the service is truthiness-guarded, so an empty string behaves
as `null` throughout; it is normalised once on entry. -/
def truthyStr : Option String → Option String
  | some "" => none
  | x => x

/-- `email ? { email } : {}` (line 26): a present field is an equality
filter, an absent one is the empty filter `{}`, satisfied by every row. -/
def emailFilter (email : Option String) (c : Contact) : Bool :=
  match email with
  | some e => c.email == some e
  | none => true

/-- `phoneNumber ? { phoneNumber } : {}` (line 27). -/
def phoneFilter (phoneNumber : Option String) (c : Contact) : Bool :=
  match phoneNumber with
  | some p => c.phoneNumber == some p
  | none => true

/-- Lines 23–34: `findMany` over the `OR` of the two filters, excluding
soft-deleted rows, ordered by `createdAt` ascending (stable over scan
order). -/
def matchingContacts (email phoneNumber : Option String) (s : Store) : List Contact :=
  List.insertionSort createdLE
    (s.contacts.filter fun c =>
      (emailFilter email c || phoneFilter phoneNumber c) && c.deletedAt == none)

/-- `findUnique({ where: { id, deletedAt: null } })` (lines 57–59, 84). -/
def findByIdLive (s : Store) (i : Nat) : Option Contact :=
  s.contacts.find? fun c => c.id == i && c.deletedAt == none

/-- The loop at lines 52–64: a matched primary is taken directly; a matched
secondary with a truthy `linkedId` contributes the row it links to, provided
that row exists, is not deleted and is indeed a primary. -/
def primaryContactsOf (s : Store) : List Contact → List Contact
  | [] => []
  | c :: rest =>
    if c.linkPrecedence = .primary then c :: primaryContactsOf s rest
    else
      match c.linkedId with
      | some lid =>
        if lid = 0 then primaryContactsOf s rest
        else
          match findByIdLive s lid with
          | some p =>
            if p.linkPrecedence = .primary then p :: primaryContactsOf s rest
            else primaryContactsOf s rest
          | none => primaryContactsOf s rest
      | none => primaryContactsOf s rest

/-- Helper for `dedupById`: drop every row whose id was already seen. -/
def dedupByIdAux (seen : List Nat) : List Contact → List Contact
  | [] => []
  | c :: rest =>
    if c.id ∈ seen then dedupByIdAux seen rest
    else c :: dedupByIdAux (c.id :: seen) rest

/-- `new Map(primaryContacts.map(c => [c.id, c])).values()` (line 67):
deduplicate by id, keeping first-insertion order; duplicate ids always carry
the identical row, so the first occurrence is kept. -/
def dedupById (l : List Contact) : List Contact :=
  dedupByIdAux [] l

/-- Lines 67–68: the deduplicated primaries, stably sorted by `createdAt`. -/
def uniquePrimaryContacts (email phoneNumber : Option String) (s : Store) : List Contact :=
  List.insertionSort createdLE
    (dedupById (primaryContactsOf s (matchingContacts email phoneNumber s)))

/-- The row assembled by a `prisma.contact.create` call: next id, stamped
with the current clock. -/
def newContact (s : Store) (email phoneNumber : Option String)
    (linkedId : Option Nat) (prec : LinkPrecedence) : Contact :=
  { id := s.nextId, email := email, phoneNumber := phoneNumber,
    linkedId := linkedId, linkPrecedence := prec,
    createdAt := s.now, deletedAt := none }

/-- `prisma.contact.create` (lines 38–44, 91–97, 179): appends the row and
advances the id counter and the clock. -/
def createContact (s : Store) (email phoneNumber : Option String)
    (linkedId : Option Nat) (prec : LinkPrecedence) : Store :=
  { contacts := s.contacts ++ [newContact s email phoneNumber linkedId prec],
    nextId := s.nextId + 1, now := s.now + 1 }

/-- Lines 108–127: each non-ultimate primary is demoted, and every
non-deleted row linked to it is re-pointed at the ultimate primary. -/
def demotionUpdates (s : Store) (ultId : Nat) : List Contact → List Contact
  | [] => []
  | d :: ds =>
    ({ d with linkedId := some ultId, linkPrecedence := .secondary }
        :: (s.contacts.filter fun c => c.linkedId == some d.id && c.deletedAt == none).map
            fun sec => { sec with linkedId := some ultId })
      ++ demotionUpdates s ultId ds

/-- Lines 133–141: the rows currently forming the ultimate primary's group. -/
def relatedOf (s : Store) (ultId : Nat) : List Contact :=
  s.contacts.filter fun c =>
    (c.id == ultId || c.linkedId == some ultId) && c.deletedAt == none

/-- Lines 144–155: pending updates are reflected in place for rows already in
the fetched group; a pending update whose row is not in the group falls into
the empty `else` branch and is dropped. -/
def mergeUpdates (ultId : Nat) (updates related : List Contact) : List Contact :=
  updates.foldl
    (fun rel u =>
      if u.id = ultId then rel
      else if rel.any fun c => c.id == u.id then
        rel.map fun c => if c.id = u.id then u else c
      else rel)
    related

/-- `allRelatedContacts` as it stands after the loop at lines 144–155. -/
def allRelatedContactsOf (s : Store) (ultId : Nat) (updates : List Contact) : List Contact :=
  mergeUpdates ultId updates (relatedOf s ultId)

/-- `map(c => c.email).filter(Boolean)` (line 158): non-null, non-empty. -/
def nonNullEmails (l : List Contact) : List String :=
  (l.filterMap fun c => c.email).filter fun e => !(e == "")

/-- `map(c => c.phoneNumber).filter(Boolean)` (line 159). -/
def nonNullPhones (l : List Contact) : List String :=
  (l.filterMap fun c => c.phoneNumber).filter fun e => !(e == "")

/-- `email && !existingEmails.has(email)` (line 161). -/
def isNewEmailOf (email : Option String) (related : List Contact) : Bool :=
  match email with
  | some e => !((nonNullEmails related).contains e)
  | none => false

/-- `phoneNumber && !existingPhoneNumbers.has(phoneNumber)` (line 162). -/
def isNewPhoneOf (phoneNumber : Option String) (related : List Contact) : Bool :=
  match phoneNumber with
  | some p => !((nonNullPhones related).contains p)
  | none => false

/-- `(email || phoneNumber) && (isNewEmail || isNewPhoneNumber)` (line 166). -/
def shouldCreateOf (email phoneNumber : Option String) (related : List Contact) : Bool :=
  (email.isSome || phoneNumber.isSome) &&
    (isNewEmailOf email related || isNewPhoneOf phoneNumber related)

/-- Line 168: a row of the fetched group whose `(email, phoneNumber)` pair
equals the fragment exactly, nulls included. -/
def exactMatchExistsOf (email phoneNumber : Option String) (related : List Contact) : Bool :=
  related.any fun c => c.email == email && c.phoneNumber == phoneNumber

/-- The field rewrite performed by one `prisma.contact.update` (lines
192–197): `email`, `phoneNumber`, `linkedId`, `linkPrecedence` are set from
the pending row, everything else is kept. -/
def overwrite (c u : Contact) : Contact :=
  { c with email := u.email, phoneNumber := u.phoneNumber,
           linkedId := u.linkedId, linkPrecedence := u.linkPrecedence }

/-- One `prisma.contact.update({ where: { id }, data: {...} })` (lines
190–198). -/
def applyUpdate (cs : List Contact) (u : Contact) : List Contact :=
  cs.map fun c => if c.id = u.id then overwrite c u else c

/-- `$transaction(contactsToUpdate.map(... update ...))` (lines 188–200). -/
def applyUpdates (s : Store) (us : List Contact) : Store :=
  { s with contacts := us.foldl applyUpdate s.contacts }

/-- The net effect of the transaction on a single row: each pending update
whose id matches rewrites the row's four mutable fields in turn. -/
def applyAll (us : List Contact) (c : Contact) : Contact :=
  us.foldl (fun c u => if c.id = u.id then overwrite c u else c) c

/-- Lines 204–215: the re-fetched final group. -/
def finalGroupContacts (s : Store) (ultId : Nat) : List Contact :=
  List.insertionSort createdLE
    (s.contacts.filter fun c =>
      (c.id == ultId || c.linkedId == some ultId) && c.deletedAt == none)

/-- Lines 219–223: the planned primary if still primary in the final group,
else any primary of the final group, else its oldest row, else (empty group)
the planned primary itself. -/
def primaryInFinalGroup (finalGroup : List Contact) (ult : Contact) : Contact :=
  ((((finalGroup.find? fun c =>
        c.id == ult.id && decide (c.linkPrecedence = .primary)).orElse
      fun _ => finalGroup.find? fun c => decide (c.linkPrecedence = .primary)).orElse
      fun _ => finalGroup.head?).getD ult)

structure ContactBlock where
  primaryContatctId : Nat
  emails : List String
  phoneNumbers : List String
  secondaryContactIds : List Nat
deriving DecidableEq, Repr

structure IdentifyResponse where
  contact : ContactBlock
deriving DecidableEq, Repr

/-- JSON values, for stating facts about the serialised response shape. -/
inductive Json where
  | num (n : Nat)
  | str (s : String)
  | arr (xs : List Json)
  | obj (fields : List (String × Json))

/-- The response as serialised to the caller, field names and nesting as in
the `IdentifyResponse` interface of the source (lines 9–16, 264–271). -/
def IdentifyResponse.toJson (r : IdentifyResponse) : Json :=
  .obj [("contact", .obj
    [("primaryContatctId", .num r.contact.primaryContatctId),
     ("emails", .arr (r.contact.emails.map .str)),
     ("phoneNumbers", .arr (r.contact.phoneNumbers.map .str)),
     ("secondaryContactIds", .arr (r.contact.secondaryContactIds.map .num))])]

def Json.topKeys : Json → List String
  | .obj fields => fields.map fun f => f.1
  | _ => []

/-- JS `Set.add`: append if not already present (insertion order kept). -/
def setInsert {α : Type} [DecidableEq α] (x : α) (l : List α) : List α :=
  if x ∈ l then l else l ++ [x]

/-- The membership test of the loop at lines 234–251 for a row other than the
primary: included when it links to the primary, or links to a row that links
to the primary, or is a secondary; a foreign primary (line 242) is skipped. -/
def includeMember (p : Contact) (all : List Contact) (c : Contact) : Bool :=
  !(c.id == p.id) &&
    ((c.linkedId == some p.id
        || all.any fun d => some d.id == c.linkedId && d.linkedId == some p.id)
      || !(decide (c.linkPrecedence = LinkPrecedence.primary)))

/-- `if (primaryContact.email) emails.add(primaryContact.email)` (line 231). -/
def truthyToList : Option String → List String
  | some e => if e = "" then [] else [e]
  | none => []

/-- `if (contact.field) set.add(contact.field)`: add a truthy string field
value to a `Set`. -/
def addTruthy (init : List String) : Option String → List String
  | some e => if e = "" then init else setInsert e init
  | none => init

/-- A `Set` of strings collected over the member loop: for each row passing
the membership test, a truthy field value is added in insertion order. -/
def collectSet (cond : Contact → Bool) (g : Contact → Option String)
    (init : List String) : List Contact → List String
  | [] => init
  | c :: l => collectSet cond g (if cond c then addTruthy init (g c) else init) l

/-- A `Set` of ids collected over the member loop. -/
def collectIds (cond : Contact → Bool) (init : List Nat) : List Contact → List Nat
  | [] => init
  | c :: l => collectIds cond (if cond c then setInsert c.id init else init) l

/-- The `emails` set after the loop at lines 226–251 (insertion order). -/
def emailSetOf (p : Contact) (all : List Contact) : List String :=
  collectSet (includeMember p all) (fun c => c.email) (truthyToList p.email) all

/-- The `phoneNumbers` set after the loop at lines 226–251. -/
def phoneSetOf (p : Contact) (all : List Contact) : List String :=
  collectSet (includeMember p all) (fun c => c.phoneNumber) (truthyToList p.phoneNumber) all

/-- The `secondaryContactIds` set after the loop at lines 226–251. -/
def idSetOf (p : Contact) (all : List Contact) : List Nat :=
  collectIds (includeMember p all) [] all

def strSort (l : List String) : List String :=
  List.insertionSort (fun a b => a ≤ b) l

def natSort (l : List Nat) : List Nat :=
  List.insertionSort (fun a b => a ≤ b) l

/-- Helper for `dedupFirst`: drop every element already seen. -/
def dedupFirstAux {α : Type} [DecidableEq α] (seen : List α) : List α → List α
  | [] => []
  | x :: xs =>
    if x ∈ seen then dedupFirstAux seen xs
    else x :: dedupFirstAux (x :: seen) xs

/-- `[...new Set(xs)]`: deduplicate keeping first occurrences. -/
def dedupFirst {α : Type} [DecidableEq α] (l : List α) : List α :=
  dedupFirstAux [] l

/-- `formatResponse` (lines 226–272). -/
def formatResponse (p : Contact) (all : List Contact) : IdentifyResponse :=
  { contact :=
    { primaryContatctId := p.id
      emails := dedupFirst (truthyToList p.email ++
        strSort ((emailSetOf p all).filter fun e => !(some e == p.email)))
      phoneNumbers := dedupFirst (truthyToList p.phoneNumber ++
        strSort ((phoneSetOf p all).filter fun e => !(some e == p.phoneNumber)))
      secondaryContactIds := natSort (idSetOf p all) } }

/-- The outcome of one `identifyContact` call: the final store, the response,
the optionally created secondary row (line 164's flag together with the row),
and the store states after each commit the call performed (each
`prisma.contact.create` and the `$transaction` are separate commits). -/
structure IdentifyResult where
  store : Store
  response : IdentifyResponse
  created : Option Contact
  commits : List Store
deriving DecidableEq, Repr

/-- Lines 36–46 and 91–98: create a fresh primary from the fragment and
answer with it alone. -/
def freshPrimaryResult (s0 : Store) (email phoneNumber : Option String) : IdentifyResult :=
  { store := createContact s0 email phoneNumber none .primary,
    response := formatResponse (newContact s0 email phoneNumber none .primary) [],
    created := none, commits := [createContact s0 email phoneNumber none .primary] }

/-- Lines 186–223: optional transaction, re-fetch, response assembly. -/
def finishPath (s1 : Store) (ult : Contact) (updates : List Contact)
    (created : Option Contact) (commits1 : List Store) : IdentifyResult :=
  if updates.isEmpty then
    { store := s1,
      response := formatResponse
        (primaryInFinalGroup (finalGroupContacts s1 ult.id) ult)
        (finalGroupContacts s1 ult.id),
      created := created, commits := commits1 }
  else
    { store := applyUpdates s1 updates,
      response := formatResponse
        (primaryInFinalGroup (finalGroupContacts (applyUpdates s1 updates) ult.id) ult)
        (finalGroupContacts (applyUpdates s1 updates) ult.id),
      created := created, commits := commits1 ++ [applyUpdates s1 updates] }

/-- Lines 131–223 with the ultimate primary and pending demotions fixed: the
novelty test over the fetched group, the optional creation of the new
secondary (a commit of its own, before the transaction), then `finishPath`. -/
def mainPath (s0 : Store) (ult : Contact) (updates0 : List Contact)
    (email phoneNumber : Option String) : IdentifyResult :=
  if shouldCreateOf email phoneNumber (allRelatedContactsOf s0 ult.id updates0) &&
      !(exactMatchExistsOf email phoneNumber (allRelatedContactsOf s0 ult.id updates0)) then
    finishPath (createContact s0 email phoneNumber (some ult.id) .secondary) ult
      (updates0 ++ [newContact s0 email phoneNumber (some ult.id) .secondary])
      (some (newContact s0 email phoneNumber (some ult.id) .secondary))
      [createContact s0 email phoneNumber (some ult.id) .secondary]
  else
    finishPath s0 ult updates0 none []

/-- Lines 73–102: the zero-resolved-primaries fallback around the oldest
matched row. -/
def fallbackPath (s0 : Store) (m0 : Contact) (email phoneNumber : Option String) :
    IdentifyResult :=
  if m0.linkPrecedence = .secondary then
    match m0.linkedId with
    | some l =>
      if l = 0 then mainPath s0 m0 [] email phoneNumber
      else
        match findByIdLive s0 l with
        | some fp => mainPath s0 fp [] email phoneNumber
        | none => freshPrimaryResult s0 email phoneNumber
    | none => mainPath s0 m0 [] email phoneNumber
  else mainPath s0 m0 [] email phoneNumber

/-- `ContactService.identifyContact` (lines 19–224). -/
def identifyContact (email0 phoneNumber0 : Option String) (s0 : Store) : IdentifyResult :=
  match matchingContacts (truthyStr email0) (truthyStr phoneNumber0) s0 with
  | [] => freshPrimaryResult s0 (truthyStr email0) (truthyStr phoneNumber0)
  | m0 :: _ =>
    match uniquePrimaryContacts (truthyStr email0) (truthyStr phoneNumber0) s0 with
    | u :: rest =>
      mainPath s0 u (demotionUpdates s0 u.id rest) (truthyStr email0) (truthyStr phoneNumber0)
    | [] => fallbackPath s0 m0 (truthyStr email0) (truthyStr phoneNumber0)

/-- The planned ultimate primary of a call, when the call reaches the
result-building step (lines 70–105): `none` exactly on the two early-return
fresh-primary paths. -/
def ultimateOf? (email phoneNumber : Option String) (s0 : Store) : Option Contact :=
  match matchingContacts email phoneNumber s0 with
  | [] => none
  | m0 :: _ =>
    match uniquePrimaryContacts email phoneNumber s0 with
    | u :: _ => some u
    | [] =>
      if m0.linkPrecedence = .secondary then
        match m0.linkedId with
        | some l =>
          if l = 0 then some m0
          else
            match findByIdLive s0 l with
            | some fp => some fp
            | none => none
        | none => some m0
      else some m0

/-! ### Concrete stores used by counterexamples and witnesses -/

def emptyStore : Store := { contacts := [], nextId := 1, now := 1 }

/-- One primary holding only an email. -/
def S6 : Store :=
  { contacts := [{ id := 1, email := some "a@x.com", phoneNumber := none,
                   linkedId := none, linkPrecedence := .primary,
                   createdAt := 1, deletedAt := none }],
    nextId := 2, now := 2 }

/-- Two unrelated single-row clusters: one primary holding `q@x.com`, one
primary holding `a@x.com`. -/
def S7 : Store :=
  { contacts :=
      [{ id := 1, email := some "q@x.com", phoneNumber := none,
         linkedId := none, linkPrecedence := .primary,
         createdAt := 1, deletedAt := none },
       { id := 2, email := some "a@x.com", phoneNumber := none,
         linkedId := none, linkPrecedence := .primary,
         createdAt := 2, deletedAt := none }],
    nextId := 3, now := 3 }

/-- Two unrelated single-row clusters: a primary holding only an email and a
younger primary holding only a phone. -/
def S4 : Store :=
  { contacts :=
      [{ id := 1, email := some "a@x.com", phoneNumber := none,
         linkedId := none, linkPrecedence := .primary,
         createdAt := 1, deletedAt := none },
       { id := 2, email := none, phoneNumber := some "111",
         linkedId := none, linkPrecedence := .primary,
         createdAt := 2, deletedAt := none }],
    nextId := 3, now := 3 }

/-- A single secondary row whose `linkedId` dangles (no row with id 5). -/
def S5 : Store :=
  { contacts := [{ id := 1, email := some "a@x.com", phoneNumber := none,
                   linkedId := some 5, linkPrecedence := .secondary,
                   createdAt := 1, deletedAt := none }],
    nextId := 2, now := 2 }

/-- Two primaries created in the same `createdAt` instant (ids 3 and 9), each
with one secondary; the fragment matches only the two secondaries. -/
def S1 : Store :=
  { contacts :=
      [{ id := 3, email := some "b@x.com", phoneNumber := some "1",
         linkedId := none, linkPrecedence := .primary,
         createdAt := 5, deletedAt := none },
       { id := 9, email := some "c@x.com", phoneNumber := some "2",
         linkedId := none, linkPrecedence := .primary,
         createdAt := 5, deletedAt := none },
       { id := 10, email := some "x@x.com", phoneNumber := none,
         linkedId := some 9, linkPrecedence := .secondary,
         createdAt := 6, deletedAt := none },
       { id := 11, email := none, phoneNumber := some "7",
         linkedId := some 3, linkPrecedence := .secondary,
         createdAt := 7, deletedAt := none }],
    nextId := 12, now := 8 }

/-- Following the specification's words, for comparison with the code: the
full post-merge cluster membership — the fetched group together with every
pending-update row (demoted primaries and their re-pointed secondaries) not
already in it. -/
def specPostMergeMembers (s : Store) (ultId : Nat) (updates : List Contact) : List Contact :=
  relatedOf s ultId ++
    updates.filter fun u => !((relatedOf s ultId).any fun c => c.id == u.id)

/-- The merge run on `S4` by `identify(email = "a@x.com", phone = "111")`,
exposed as a named result for the atomicity analysis. -/
def S4run : IdentifyResult := identifyContact (some "a@x.com") (some "111") S4

/-- A concrete one-hop cluster for exercising the result builder. -/
def C9p : Contact :=
  { id := 1, email := some "b@x.com", phoneNumber := some "222", linkedId := none,
    linkPrecedence := .primary, createdAt := 1, deletedAt := none }

/-- The members of `C9p`'s cluster, primary included. -/
def C9all : List Contact :=
  [C9p,
   { id := 2, email := some "a@x.com", phoneNumber := none, linkedId := some 1,
     linkPrecedence := .secondary, createdAt := 2, deletedAt := none },
   { id := 3, email := none, phoneNumber := some "111", linkedId := some 1,
     linkPrecedence := .secondary, createdAt := 3, deletedAt := none }]

/-! ### Counterexamples and code evaluations -/

/-- Claim C1, counterexample: on `S4`-style data with a `createdAt` tie, the
match set of `identify(email = "x@x.com", phone = "7")` over `S1` resolves to
the two primaries `(createdAt, id) = (5, 9)` and `(5, 3)`; the claim picks
`(5, 3)` as ultimate, yet the code keeps 9 (the sort at lines 67–68 compares
`createdAt` only, stably, in resolution order) and demotes 3 under 9. -/
theorem C1_counterexample :
    (uniquePrimaryContacts (some "x@x.com") (some "7") S1).map
        (fun c => (c.createdAt, c.id)) = [(5, 9), (5, 3)] ∧
    (identifyContact (some "x@x.com") (some "7") S1).response.contact.primaryContatctId = 9 ∧
    ((identifyContact (some "x@x.com") (some "7") S1).store.contacts.any fun c =>
      c.id == 3 && decide (c.linkPrecedence = .secondary) && c.linkedId == some 9) = true := by
  decide

/-- Claim C3, counterexample: merging `S4` with the fragment
`("a@x.com", "111")` performs two separate commits; after the first the new
secondary row (id 3) already exists while the non-ultimate primary (id 2) is
still an undemoted primary — an observable half-applied merge, and the state
left behind if the update transaction then fails. -/
theorem C3_counterexample :
    S4run.commits.length = 2 ∧
    S4run.commits.head?.getD S4 ≠ S4 ∧
    S4run.commits.head?.getD S4 ≠ S4run.store ∧
    ((S4run.commits.head?.getD S4).contacts.any fun c => c.id == 3) = true ∧
    ((S4run.commits.head?.getD S4).contacts.any fun c =>
      c.id == 2 && decide (c.linkPrecedence = .primary)) = true := by
  decide

/-- Claim C4, counterexample: for the merge of `S4` under fragment
`("a@x.com", "111")`, the phone set the code tests against is empty — the
demoted primary carrying phone `111` never enters `allRelatedContacts`
(lines 149–153 drop it) — while the post-merge membership of the claim
contains `111`; the fragment is therefore not novel by the claim, yet the
code creates a new record. -/
theorem C4_counterexample :
    uniquePrimaryContacts (some "a@x.com") (some "111") S4 =
      [{ id := 1, email := some "a@x.com", phoneNumber := none, linkedId := none,
         linkPrecedence := .primary, createdAt := 1, deletedAt := none },
       { id := 2, email := none, phoneNumber := some "111", linkedId := none,
         linkPrecedence := .primary, createdAt := 2, deletedAt := none }] ∧
    nonNullPhones (allRelatedContactsOf S4 1 (demotionUpdates S4 1
      [{ id := 2, email := none, phoneNumber := some "111", linkedId := none,
         linkPrecedence := .primary, createdAt := 2, deletedAt := none }])) = [] ∧
    nonNullPhones (specPostMergeMembers S4 1 (demotionUpdates S4 1
      [{ id := 2, email := none, phoneNumber := some "111", linkedId := none,
         linkPrecedence := .primary, createdAt := 2, deletedAt := none }])) = ["111"] ∧
    nonNullEmails (specPostMergeMembers S4 1 (demotionUpdates S4 1
      [{ id := 2, email := none, phoneNumber := some "111", linkedId := none,
         linkPrecedence := .primary, createdAt := 2, deletedAt := none }])) = ["a@x.com"] ∧
    (identifyContact (some "a@x.com") (some "111") S4).created =
      some { id := 3, email := some "a@x.com", phoneNumber := some "111",
             linkedId := some 1, linkPrecedence := .secondary,
             createdAt := 3, deletedAt := none } := by
  decide

/-- Claim C5, counterexample: on `S5` (one matched secondary whose linked
primary is missing) the call `identify(email = "a@x.com")` leaves the oldest
matched record untouched — still secondary, still pointing at the missing id
5 — and creates a fresh primary from the request (lines 91–98), exactly what
the claim rules out. -/
theorem C5_counterexample :
    (identifyContact (some "a@x.com") none S5).store.contacts =
      [{ id := 1, email := some "a@x.com", phoneNumber := none, linkedId := some 5,
         linkPrecedence := .secondary, createdAt := 1, deletedAt := none },
       { id := 2, email := some "a@x.com", phoneNumber := none, linkedId := none,
         linkPrecedence := .primary, createdAt := 2, deletedAt := none }] ∧
    (identifyContact (some "a@x.com") none S5).response.contact.primaryContatctId = 2 := by
  decide

/-- Claim C6, code evaluation at the failing input: the fragment supplies
only `phoneNumber = "999"`; no row of `S6` carries that phone (or any phone),
yet the query returns the store's only row, because the absent email renders
the first `OR` branch the empty filter `{}`, which matches every row. -/
theorem C6_code_eval :
    matchingContacts none (some "999") S6 =
      [{ id := 1, email := some "a@x.com", phoneNumber := none, linkedId := none,
         linkPrecedence := .primary, createdAt := 1, deletedAt := none }] ∧
    (∀ c ∈ matchingContacts none (some "999") S6,
      c.phoneNumber ≠ some "999" ∧ c.email ≠ some "999") := by
  decide

/-- Claim C7, code evaluation at the failing input: `S7` holds a cluster
whose row `(email = "a@x.com", phoneNumber = null)` equals the submitted
fragment exactly, yet `identify(email = "a@x.com")` creates a new record
(and merges the two unrelated clusters), because the absent phone makes the
second `OR` branch match every row, pulling the older foreign primary in as
ultimate. -/
theorem C7_code_eval :
    (∃ c ∈ S7.contacts, c.email = some "a@x.com" ∧ c.phoneNumber = none ∧
      c.linkPrecedence = .primary ∧ c.deletedAt = none) ∧
    (identifyContact (some "a@x.com") none S7).created =
      some { id := 3, email := some "a@x.com", phoneNumber := none, linkedId := some 1,
             linkPrecedence := .secondary, createdAt := 3, deletedAt := none } ∧
    (identifyContact (some "a@x.com") none S7).store.contacts.length = 3 := by
  decide

/-- Claim C8, counterexample: the serialised response of a successful
identify call has the single top-level field `contact`; the four fields sit
below it and none of the claim's top-level names (in particular
`primaryContactId`, which the code spells `primaryContatctId`) appears at the
top level. -/
theorem C8_counterexample :
    (identifyContact (some "a@x.com") none emptyStore).response.toJson.topKeys =
      ["contact"] ∧
    "primaryContactId" ∉
      (identifyContact (some "a@x.com") none emptyStore).response.toJson.topKeys := by
  decide

/-! ### Generic helper lemmas -/

theorem mem_insertionSort {α : Type} (r : α → α → Prop) [DecidableRel r]
    (l : List α) (a : α) : a ∈ List.insertionSort r l ↔ a ∈ l :=
  (List.perm_insertionSort r l).mem_iff

theorem insertionSort_eq_nil_iff {α : Type} (r : α → α → Prop) [DecidableRel r]
    (l : List α) : List.insertionSort r l = [] ↔ l = [] := by
  constructor
  · intro h
    have hp := List.perm_insertionSort r l
    rw [h] at hp
    exact hp.symm.eq_nil
  · intro h
    subst h
    rfl

theorem mem_setInsert {α : Type} [DecidableEq α] (x y : α) (l : List α) :
    x ∈ setInsert y l ↔ x = y ∨ x ∈ l := by
  unfold setInsert
  split
  · constructor
    · exact fun h => Or.inr h
    · rintro (rfl | h) <;> assumption
  · simp [or_comm]

theorem nodup_setInsert {α : Type} [DecidableEq α] (y : α) (l : List α)
    (h : l.Nodup) : (setInsert y l).Nodup := by
  unfold setInsert
  split
  · exact h
  · rename_i hy
    rw [List.nodup_append]
    refine ⟨h, List.nodup_singleton y, ?_⟩
    intro a ha hay
    rw [List.mem_singleton] at hay
    exact hy (hay ▸ ha)

theorem nodupIds_eq_of_id_eq {l : List Contact}
    (h : (l.map fun c => c.id).Nodup) {a b : Contact}
    (ha : a ∈ l) (hb : b ∈ l) (hid : a.id = b.id) : a = b :=
  List.inj_on_of_nodup_map h ha hb hid

theorem applyUpdates_contacts (us : List Contact) (cs : List Contact) :
    us.foldl applyUpdate cs = cs.map (applyAll us) := by
  induction us generalizing cs with
  | nil =>
    have h : applyAll ([] : List Contact) = fun c => c := rfl
    rw [h, List.map_id']
    rfl
  | cons u us ih =>
    rw [List.foldl_cons, ih]
    unfold applyUpdate
    rw [List.map_map]
    rfl

theorem applyAll_cons (u : Contact) (us : List Contact) (c : Contact) :
    applyAll (u :: us) c = applyAll us (if c.id = u.id then overwrite c u else c) := rfl

theorem overwrite_id (c u : Contact) : (overwrite c u).id = c.id := rfl

theorem overwrite_createdAt (c u : Contact) : (overwrite c u).createdAt = c.createdAt := rfl

theorem overwrite_deletedAt (c u : Contact) : (overwrite c u).deletedAt = c.deletedAt := rfl

theorem applyAll_id (us : List Contact) (c : Contact) : (applyAll us c).id = c.id := by
  induction us generalizing c with
  | nil => rfl
  | cons u us ih =>
    rw [applyAll_cons]
    split
    · rw [ih, overwrite_id]
    · rw [ih]

theorem applyAll_createdAt (us : List Contact) (c : Contact) :
    (applyAll us c).createdAt = c.createdAt := by
  induction us generalizing c with
  | nil => rfl
  | cons u us ih =>
    rw [applyAll_cons]
    split
    · rw [ih, overwrite_createdAt]
    · rw [ih]

theorem applyAll_deletedAt (us : List Contact) (c : Contact) :
    (applyAll us c).deletedAt = c.deletedAt := by
  induction us generalizing c with
  | nil => rfl
  | cons u us ih =>
    rw [applyAll_cons]
    split
    · rw [ih, overwrite_deletedAt]
    · rw [ih]

theorem applyAll_of_no_match (us : List Contact) (c : Contact)
    (h : ∀ u ∈ us, u.id ≠ c.id) : applyAll us c = c := by
  induction us with
  | nil => rfl
  | cons u us ih =>
    rw [applyAll_cons]
    rw [if_neg fun he => h u (List.mem_cons_self u us) he.symm]
    exact ih fun v hv => h v (List.mem_cons_of_mem u hv)

theorem overwrite_linkedId (c u : Contact) : (overwrite c u).linkedId = u.linkedId := rfl

theorem overwrite_linkPrecedence (c u : Contact) :
    (overwrite c u).linkPrecedence = u.linkPrecedence := rfl

theorem overwrite_overwrite (c u : Contact) :
    overwrite (overwrite c u) u = overwrite c u := rfl

theorem applyAll_prop (uid : Nat) (us : List Contact) (c : Contact)
    (hall : ∀ v ∈ us, v.linkedId = some uid ∧ v.linkPrecedence = .secondary)
    (hmatch : ∃ v ∈ us, v.id = c.id) :
    (applyAll us c).linkedId = some uid ∧
    (applyAll us c).linkPrecedence = .secondary := by
  induction us generalizing c with
  | nil =>
    obtain ⟨v, hv, _⟩ := hmatch
    exact absurd hv (List.not_mem_nil v)
  | cons u us ih =>
    rw [applyAll_cons]
    by_cases hc : c.id = u.id
    · rw [if_pos hc]
      by_cases hex : ∃ v ∈ us, v.id = (overwrite c u).id
      · exact ih _ (fun v hv => hall v (List.mem_cons_of_mem u hv)) hex
      · rw [applyAll_of_no_match _ _ fun v hv hvid => hex ⟨v, hv, hvid⟩]
        have hu := hall u (List.mem_cons_self u us)
        rw [overwrite_linkedId, overwrite_linkPrecedence]
        exact hu
    · rw [if_neg hc]
      refine ih _ (fun v hv => hall v (List.mem_cons_of_mem u hv)) ?_
      obtain ⟨v, hv, hvid⟩ := hmatch
      rcases List.mem_cons.mp hv with rfl | hv'
      · exact absurd hvid.symm hc
      · exact ⟨v, hv', hvid⟩

theorem applyAll_fixpoint (vs : List Contact) (c u : Contact)
    (hv : ∀ w ∈ vs, w.id = c.id → w = u) :
    applyAll vs (overwrite c u) = overwrite c u := by
  induction vs with
  | nil => rfl
  | cons w ws ih =>
    rw [applyAll_cons]
    by_cases hw : (overwrite c u).id = w.id
    · rw [overwrite_id] at hw
      have hwu : w = u := hv w (List.mem_cons_self w ws) hw.symm
      subst hwu
      rw [if_pos (by rw [overwrite_id, hw]), overwrite_overwrite]
      exact ih fun x hx => hv x (List.mem_cons_of_mem w hx)
    · rw [if_neg hw]
      exact ih fun x hx => hv x (List.mem_cons_of_mem w hx)

theorem applyAll_single (us : List Contact) (c u : Contact)
    (hu : u ∈ us) (huc : u.id = c.id)
    (hunique : ∀ v ∈ us, v.id = c.id → v = u) :
    applyAll us c = overwrite c u := by
  induction us with
  | nil => exact absurd hu (List.not_mem_nil u)
  | cons v vs ih =>
    rw [applyAll_cons]
    by_cases hv : c.id = v.id
    · have hvu : v = u := hunique v (List.mem_cons_self v vs) hv.symm
      subst hvu
      rw [if_pos hv]
      exact applyAll_fixpoint vs c v fun w hw hwc =>
        hunique w (List.mem_cons_of_mem v hw) hwc
    · rw [if_neg hv]
      rcases List.mem_cons.mp hu with rfl | hu'
      · exact absurd huc.symm hv
      · exact ih hu' fun w hw hwc => hunique w (List.mem_cons_of_mem v hw) hwc

/-! ### Resolution-stage lemmas -/

theorem mem_matchingContacts (email phoneNumber : Option String) (s : Store) (c : Contact) :
    c ∈ matchingContacts email phoneNumber s ↔
      c ∈ s.contacts ∧
      ((emailFilter email c || phoneFilter phoneNumber c) && c.deletedAt == none) = true := by
  unfold matchingContacts
  rw [mem_insertionSort, List.mem_filter]

theorem matchingContacts_live (email phoneNumber : Option String) (s : Store) (c : Contact)
    (h : c ∈ matchingContacts email phoneNumber s) :
    c ∈ s.contacts ∧ c.deletedAt = none := by
  rw [mem_matchingContacts] at h
  obtain ⟨h1, h2⟩ := h
  rw [Bool.and_eq_true] at h2
  exact ⟨h1, by simpa using h2.2⟩

theorem findByIdLive_some (s : Store) (i : Nat) (c : Contact)
    (h : findByIdLive s i = some c) :
    c ∈ s.contacts ∧ c.id = i ∧ c.deletedAt = none := by
  unfold findByIdLive at h
  have hm := List.mem_of_find?_eq_some h
  have hp := List.find?_some h
  rw [Bool.and_eq_true] at hp
  exact ⟨hm, by simpa using hp.1, by simpa using hp.2⟩

theorem findByIdLive_isSome (s : Store) (i : Nat) (c : Contact)
    (hc : c ∈ s.contacts) (hid : c.id = i) (hlive : c.deletedAt = none) :
    ∃ q, findByIdLive s i = some q := by
  unfold findByIdLive
  have hex : ∃ x, x ∈ s.contacts ∧ (x.id == i && x.deletedAt == none) = true :=
    ⟨c, hc, by simp [hid, hlive]⟩
  rw [← List.find?_isSome] at hex
  exact Option.isSome_iff_exists.mp hex

theorem primaryContactsOf_cons_primary (s : Store) (m : Contact) (ms : List Contact)
    (h : m.linkPrecedence = .primary) :
    primaryContactsOf s (m :: ms) = m :: primaryContactsOf s ms := by
  simp only [primaryContactsOf]
  rw [if_pos h]

theorem primaryContactsOf_cons_sec_none (s : Store) (m : Contact) (ms : List Contact)
    (hsec : m.linkPrecedence = .secondary) (h : m.linkedId = none) :
    primaryContactsOf s (m :: ms) = primaryContactsOf s ms := by
  simp only [primaryContactsOf]
  rw [if_neg (by simp [hsec]), h]

theorem primaryContactsOf_cons_sec_zero (s : Store) (m : Contact) (ms : List Contact)
    (hsec : m.linkPrecedence = .secondary) (h : m.linkedId = some 0) :
    primaryContactsOf s (m :: ms) = primaryContactsOf s ms := by
  simp only [primaryContactsOf]
  rw [if_neg (by simp [hsec]), h]
  show (if (0 : Nat) = 0 then _ else _) = _
  rw [if_pos rfl]

theorem primaryContactsOf_cons_sec_found_primary (s : Store) (m : Contact)
    (ms : List Contact) (l : Nat) (p : Contact)
    (hsec : m.linkPrecedence = .secondary) (hlid : m.linkedId = some l) (hl : l ≠ 0)
    (hf : findByIdLive s l = some p) (hp : p.linkPrecedence = .primary) :
    primaryContactsOf s (m :: ms) = p :: primaryContactsOf s ms := by
  simp only [primaryContactsOf]
  rw [if_neg (by simp [hsec]), hlid]
  show (if l = 0 then _ else _) = _
  rw [if_neg hl, hf]
  show (if p.linkPrecedence = .primary then _ else _) = _
  rw [if_pos hp]

theorem primaryContactsOf_cons_sec_found_secondary (s : Store) (m : Contact)
    (ms : List Contact) (l : Nat) (p : Contact)
    (hsec : m.linkPrecedence = .secondary) (hlid : m.linkedId = some l) (hl : l ≠ 0)
    (hf : findByIdLive s l = some p) (hp : p.linkPrecedence = .secondary) :
    primaryContactsOf s (m :: ms) = primaryContactsOf s ms := by
  simp only [primaryContactsOf]
  rw [if_neg (by simp [hsec]), hlid]
  show (if l = 0 then _ else _) = _
  rw [if_neg hl, hf]
  show (if p.linkPrecedence = .primary then _ else _) = _
  rw [if_neg (by simp [hp])]

theorem primaryContactsOf_cons_sec_notfound (s : Store) (m : Contact)
    (ms : List Contact) (l : Nat)
    (hsec : m.linkPrecedence = .secondary) (hlid : m.linkedId = some l) (hl : l ≠ 0)
    (hf : findByIdLive s l = none) :
    primaryContactsOf s (m :: ms) = primaryContactsOf s ms := by
  simp only [primaryContactsOf]
  rw [if_neg (by simp [hsec]), hlid]
  show (if l = 0 then _ else _) = _
  rw [if_neg hl, hf]

theorem primaryContactsOf_mem (s : Store) (ms : List Contact)
    (hms : ∀ m ∈ ms, m ∈ s.contacts ∧ m.deletedAt = none) :
    ∀ x ∈ primaryContactsOf s ms,
      x ∈ s.contacts ∧ x.deletedAt = none ∧ x.linkPrecedence = .primary := by
  induction ms with
  | nil =>
    intro x hx
    exact absurd hx (List.not_mem_nil x)
  | cons m ms ih =>
    have hms' : ∀ m' ∈ ms, m' ∈ s.contacts ∧ m'.deletedAt = none :=
      fun m' hm' => hms m' (List.mem_cons_of_mem m hm')
    intro x hx
    by_cases hprim : m.linkPrecedence = .primary
    · rw [primaryContactsOf_cons_primary s m ms hprim] at hx
      rcases List.mem_cons.mp hx with rfl | hx'
      · have hm := hms x (List.mem_cons_self x ms)
        exact ⟨hm.1, hm.2, hprim⟩
      · exact ih hms' x hx'
    · have hsec : m.linkPrecedence = .secondary := by
        cases hmp : m.linkPrecedence
        · exact absurd hmp hprim
        · rfl
      cases hlid : m.linkedId with
      | none =>
        rw [primaryContactsOf_cons_sec_none s m ms hsec hlid] at hx
        exact ih hms' x hx
      | some l =>
        by_cases hl : l = 0
        · subst hl
          rw [primaryContactsOf_cons_sec_zero s m ms hsec hlid] at hx
          exact ih hms' x hx
        · cases hf : findByIdLive s l with
          | none =>
            rw [primaryContactsOf_cons_sec_notfound s m ms l hsec hlid hl hf] at hx
            exact ih hms' x hx
          | some p =>
            by_cases hp : p.linkPrecedence = .primary
            · rw [primaryContactsOf_cons_sec_found_primary s m ms l p hsec hlid hl hf hp] at hx
              rcases List.mem_cons.mp hx with rfl | hx'
              · have := findByIdLive_some s l x hf
                exact ⟨this.1, this.2.2, hp⟩
              · exact ih hms' x hx'
            · have hps : p.linkPrecedence = .secondary := by
                cases hmp : p.linkPrecedence
                · exact absurd hmp hp
                · rfl
              rw [primaryContactsOf_cons_sec_found_secondary s m ms l p hsec hlid hl hf hps] at hx
              exact ih hms' x hx

theorem primaryContactsOf_ne_nil (s : Store) (m : Contact) (ms : List Contact)
    (hm : m ∈ s.contacts) (hlive : m.deletedAt = none)
    (hwf : Store.WF s) (hhop : OneHopInv s) :
    primaryContactsOf s (m :: ms) ≠ [] := by
  by_cases hprim : m.linkPrecedence = .primary
  · rw [primaryContactsOf_cons_primary s m ms hprim]
    exact List.cons_ne_nil m _
  · have hsec : m.linkPrecedence = .secondary := by
      cases hmp : m.linkPrecedence
      · exact absurd hmp hprim
      · rfl
    obtain ⟨p, hp, hlid, hpprim, hplive⟩ := hhop m hm hlive hsec
    have hpid : 1 ≤ p.id := (hwf.2.1 p hp).1
    obtain ⟨q, hq⟩ := findByIdLive_isSome s p.id p hp rfl hplive
    obtain ⟨hqmem, hqid, _⟩ := findByIdLive_some s p.id q hq
    have hqp : q = p := nodupIds_eq_of_id_eq hwf.1 hqmem hp hqid
    subst hqp
    rw [primaryContactsOf_cons_sec_found_primary s m ms q.id q hsec hlid
      (by omega) hq hpprim]
    exact List.cons_ne_nil q _

theorem mem_dedupByIdAux (seen : List Nat) (l : List Contact) (x : Contact)
    (h : x ∈ dedupByIdAux seen l) : x ∈ l := by
  induction l generalizing seen with
  | nil => exact absurd h (List.not_mem_nil x)
  | cons c cs ih =>
    unfold dedupByIdAux at h
    split at h
    · exact List.mem_cons_of_mem c (ih _ h)
    · rcases List.mem_cons.mp h with rfl | h'
      · exact List.mem_cons_self x cs
      · exact List.mem_cons_of_mem c (ih _ h')

theorem dedupByIdAux_ids_nodup (seen : List Nat) (l : List Contact) :
    ((dedupByIdAux seen l).map fun c => c.id).Nodup ∧
    ∀ x ∈ dedupByIdAux seen l, x.id ∉ seen := by
  induction l generalizing seen with
  | nil =>
    refine ⟨List.nodup_nil, ?_⟩
    intro x h
    exact absurd h (List.not_mem_nil x)
  | cons c cs ih =>
    unfold dedupByIdAux
    split
    · exact ih seen
    · rename_i hc
      obtain ⟨hnd, hseen⟩ := ih (c.id :: seen)
      refine ⟨?_, ?_⟩
      · rw [List.map_cons, List.nodup_cons]
        refine ⟨?_, hnd⟩
        intro hmem
        rw [List.mem_map] at hmem
        obtain ⟨y, hy, hyid⟩ := hmem
        exact hseen y hy (by rw [hyid]; exact List.mem_cons_self _ _)
      · intro x hx
        rcases List.mem_cons.mp hx with rfl | hx'
        · exact hc
        · exact fun hxs => hseen x hx' (List.mem_cons_of_mem _ hxs)

theorem dedupById_ne_nil (l : List Contact) (h : l ≠ []) : dedupById l ≠ [] := by
  cases l with
  | nil => exact absurd rfl h
  | cons c cs =>
    unfold dedupById dedupByIdAux
    rw [if_neg (List.not_mem_nil _)]
    exact List.cons_ne_nil c _

theorem uniquePrimaryContacts_mem (email phoneNumber : Option String) (s : Store) :
    ∀ x ∈ uniquePrimaryContacts email phoneNumber s,
      x ∈ s.contacts ∧ x.deletedAt = none ∧ x.linkPrecedence = .primary := by
  intro x hx
  unfold uniquePrimaryContacts at hx
  rw [mem_insertionSort] at hx
  unfold dedupById at hx
  have hx2 := mem_dedupByIdAux [] _ x hx
  exact primaryContactsOf_mem s _
    (fun m hm => matchingContacts_live email phoneNumber s m hm) x hx2

theorem uniquePrimaryContacts_nodupIds (email phoneNumber : Option String) (s : Store) :
    ((uniquePrimaryContacts email phoneNumber s).map fun c => c.id).Nodup := by
  unfold uniquePrimaryContacts
  have hperm := List.perm_insertionSort createdLE
    (dedupById (primaryContactsOf s (matchingContacts email phoneNumber s)))
  have hnd := (dedupByIdAux_ids_nodup []
    (primaryContactsOf s (matchingContacts email phoneNumber s))).1
  exact ((hperm.map fun c => c.id).nodup_iff).mpr hnd

theorem uniquePrimaryContacts_sorted (email phoneNumber : Option String) (s : Store) :
    List.Sorted createdLE (uniquePrimaryContacts email phoneNumber s) :=
  List.sorted_insertionSort createdLE _

theorem uniquePrimaryContacts_nil_of_matching_nil (email phoneNumber : Option String)
    (s : Store) (h : matchingContacts email phoneNumber s = []) :
    uniquePrimaryContacts email phoneNumber s = [] := by
  unfold uniquePrimaryContacts
  rw [h]
  rfl

theorem identify_eq_mainPath (email0 phoneNumber0 : Option String) (s0 : Store)
    (u : Contact) (rest : List Contact)
    (h : uniquePrimaryContacts (truthyStr email0) (truthyStr phoneNumber0) s0 = u :: rest) :
    identifyContact email0 phoneNumber0 s0 =
      mainPath s0 u (demotionUpdates s0 u.id rest)
        (truthyStr email0) (truthyStr phoneNumber0) := by
  unfold identifyContact
  split
  · rename_i hm
    rw [uniquePrimaryContacts_nil_of_matching_nil _ _ _ hm] at h
    cases h
  · rw [h]

/-! ### Demotion-update lemmas -/

theorem mem_demotionUpdates (s : Store) (ultId : Nat) (ds : List Contact) (u : Contact) :
    u ∈ demotionUpdates s ultId ds ↔
      (∃ d ∈ ds, u = { d with linkedId := some ultId, linkPrecedence := .secondary }) ∨
      (∃ d ∈ ds, ∃ c ∈ s.contacts,
        (c.linkedId == some d.id && c.deletedAt == none) = true ∧
        u = { c with linkedId := some ultId }) := by
  induction ds with
  | nil =>
    simp [demotionUpdates]
  | cons d ds ih =>
    simp only [demotionUpdates, List.cons_append, List.mem_cons, List.mem_append,
      List.mem_map, List.mem_filter, ih, List.mem_cons]
    constructor
    · rintro (rfl | h | h)
      · exact Or.inl ⟨d, Or.inl rfl, rfl⟩
      · obtain ⟨c, ⟨hc, hp⟩, rfl⟩ := h
        exact Or.inr ⟨d, Or.inl rfl, c, hc, hp, rfl⟩
      · rcases h with ⟨d', hd', hu⟩ | ⟨d', hd', c, hc, hp, hu⟩
        · exact Or.inl ⟨d', Or.inr hd', hu⟩
        · exact Or.inr ⟨d', Or.inr hd', c, hc, hp, hu⟩
    · rintro (⟨d', hd' | hd', hu⟩ | ⟨d', hd' | hd', c, hc, hp, hu⟩)
      · subst hd'
        exact Or.inl hu
      · exact Or.inr (Or.inr (Or.inl ⟨d', hd', hu⟩))
      · subst hd'
        exact Or.inr (Or.inl ⟨c, ⟨hc, hp⟩, hu.symm⟩)
      · exact Or.inr (Or.inr (Or.inr ⟨d', hd', c, hc, hp, hu⟩))

theorem demotionUpdates_fields (s : Store) (ultId : Nat) (ds : List Contact)
    (hroot : PrimaryRootInv s) :
    ∀ v ∈ demotionUpdates s ultId ds,
      v.linkedId = some ultId ∧ v.linkPrecedence = .secondary := by
  intro v hv
  rw [mem_demotionUpdates] at hv
  rcases hv with ⟨d, hd, rfl⟩ | ⟨d, hd, c, hc, hp, rfl⟩
  · exact ⟨rfl, rfl⟩
  · refine ⟨rfl, ?_⟩
    rw [Bool.and_eq_true] at hp
    have hlid : c.linkedId = some d.id := by simpa using hp.1
    have hlive : c.deletedAt = none := by simpa using hp.2
    show c.linkPrecedence = .secondary
    cases hcp : c.linkPrecedence
    · have h0 := hroot c hc hlive hcp
      rw [h0] at hlid
      cases hlid
    · rfl

theorem demotionUpdates_id_ne (s : Store) (u : Contact) (rest : List Contact)
    (hwf : Store.WF s) (hroot : PrimaryRootInv s)
    (hu : u ∈ s.contacts) (hulive : u.deletedAt = none)
    (huprim : u.linkPrecedence = .primary)
    (hids : ((u :: rest).map fun c => c.id).Nodup)
    (_hrest : ∀ d ∈ rest, d ∈ s.contacts) :
    ∀ v ∈ demotionUpdates s u.id rest, v.id ≠ u.id := by
  intro v hv
  rw [mem_demotionUpdates] at hv
  rcases hv with ⟨d, hd, rfl⟩ | ⟨d, hd, c, hc, hp, rfl⟩
  · show d.id ≠ u.id
    intro he
    rw [List.map_cons, List.nodup_cons] at hids
    exact hids.1 (List.mem_map.mpr ⟨d, hd, he⟩)
  · show c.id ≠ u.id
    intro he
    rw [Bool.and_eq_true] at hp
    have hlid : c.linkedId = some d.id := by simpa using hp.1
    have hlive : c.deletedAt = none := by simpa using hp.2
    have hcu : c = u := nodupIds_eq_of_id_eq hwf.1 hc hu he
    subst hcu
    have h0 := hroot c hc hlive huprim
    rw [h0] at hlid
    cases hlid

theorem demotionUpdates_id_lt (s : Store) (ultId : Nat) (ds : List Contact)
    (hwf : Store.WF s) (hds : ∀ d ∈ ds, d ∈ s.contacts) :
    ∀ v ∈ demotionUpdates s ultId ds, v.id < s.nextId := by
  intro v hv
  rw [mem_demotionUpdates] at hv
  rcases hv with ⟨d, hd, rfl⟩ | ⟨d, hd, c, hc, hp, rfl⟩
  · exact (hwf.2.1 d (hds d hd)).2.1
  · exact (hwf.2.1 c hc).2.1

theorem demotionUpdates_unique_for (s : Store) (u : Contact) (rest : List Contact)
    (d : Contact)
    (hwf : Store.WF s) (hroot : PrimaryRootInv s)
    (hd : d ∈ rest)
    (hrest : ∀ x ∈ rest, x ∈ s.contacts ∧ x.deletedAt = none ∧
      x.linkPrecedence = .primary) :
    ∀ v ∈ demotionUpdates s u.id rest, v.id = d.id →
      v = { d with linkedId := some u.id, linkPrecedence := .secondary } := by
  intro v hv hvid
  rw [mem_demotionUpdates] at hv
  rcases hv with ⟨d', hd', rfl⟩ | ⟨d', hd', c, hc, hp, rfl⟩
  · have he : d' = d :=
      nodupIds_eq_of_id_eq hwf.1 (hrest d' hd').1 (hrest d hd).1 hvid
    rw [he]
  · exfalso
    rw [Bool.and_eq_true] at hp
    have hlid : c.linkedId = some d'.id := by simpa using hp.1
    have hlive : c.deletedAt = none := by simpa using hp.2
    have hcd : c = d := nodupIds_eq_of_id_eq hwf.1 hc (hrest d hd).1 hvid
    have hcprim : c.linkPrecedence = .primary := by
      rw [hcd]
      exact (hrest d hd).2.2
    have h0 := hroot c hc hlive hcprim
    rw [h0] at hlid
    cases hlid

/-! ### Main-path structural lemmas -/

theorem mainPath_store_create (s0 : Store) (ult : Contact) (updates0 : List Contact)
    (email phoneNumber : Option String)
    (h : (shouldCreateOf email phoneNumber (allRelatedContactsOf s0 ult.id updates0) &&
      !(exactMatchExistsOf email phoneNumber (allRelatedContactsOf s0 ult.id updates0)))
      = true) :
    (mainPath s0 ult updates0 email phoneNumber).store.contacts =
      (s0.contacts ++ [newContact s0 email phoneNumber (some ult.id) .secondary]).map
        (applyAll (updates0 ++ [newContact s0 email phoneNumber (some ult.id) .secondary])) ∧
    (mainPath s0 ult updates0 email phoneNumber).created =
      some (newContact s0 email phoneNumber (some ult.id) .secondary) := by
  unfold mainPath
  rw [if_pos h]
  unfold finishPath
  rw [if_neg (by cases updates0 <;> simp)]
  refine ⟨?_, rfl⟩
  show (applyUpdates (createContact s0 email phoneNumber (some ult.id) .secondary) _).contacts = _
  unfold applyUpdates createContact
  exact applyUpdates_contacts _ _

theorem mainPath_store_nocreate (s0 : Store) (ult : Contact) (updates0 : List Contact)
    (email phoneNumber : Option String)
    (h : (shouldCreateOf email phoneNumber (allRelatedContactsOf s0 ult.id updates0) &&
      !(exactMatchExistsOf email phoneNumber (allRelatedContactsOf s0 ult.id updates0)))
      = false) :
    (mainPath s0 ult updates0 email phoneNumber).store.contacts =
      s0.contacts.map (applyAll updates0) ∧
    (mainPath s0 ult updates0 email phoneNumber).created = none := by
  unfold mainPath
  rw [if_neg (by rw [h]; exact Bool.false_ne_true)]
  unfold finishPath
  by_cases he : updates0.isEmpty
  · rw [if_pos he]
    have h0 : updates0 = [] := List.isEmpty_iff.mp he
    subst h0
    refine ⟨?_, rfl⟩
    show s0.contacts = _
    have hid : applyAll ([] : List Contact) = fun c => c := rfl
    rw [hid, List.map_id']
  · rw [if_neg he]
    refine ⟨?_, rfl⟩
    show (applyUpdates s0 updates0).contacts = _
    unfold applyUpdates
    exact applyUpdates_contacts _ _

theorem finishPath_response (s1 : Store) (ult : Contact) (updates : List Contact)
    (created : Option Contact) (commits1 : List Store) :
    (finishPath s1 ult updates created commits1).response =
      formatResponse
        (primaryInFinalGroup
          (finalGroupContacts (finishPath s1 ult updates created commits1).store ult.id) ult)
        (finalGroupContacts (finishPath s1 ult updates created commits1).store ult.id) := by
  unfold finishPath
  split <;> rfl

theorem mainPath_response (s0 : Store) (ult : Contact) (updates0 : List Contact)
    (email phoneNumber : Option String) :
    (mainPath s0 ult updates0 email phoneNumber).response =
      formatResponse
        (primaryInFinalGroup
          (finalGroupContacts (mainPath s0 ult updates0 email phoneNumber).store ult.id) ult)
        (finalGroupContacts (mainPath s0 ult updates0 email phoneNumber).store ult.id) := by
  unfold mainPath
  split <;> exact finishPath_response _ _ _ _ _

theorem formatResponse_primaryContatctId (p : Contact) (all : List Contact) :
    (formatResponse p all).contact.primaryContatctId = p.id := rfl

theorem mem_finalGroupContacts (s : Store) (ultId : Nat) (c : Contact) :
    c ∈ finalGroupContacts s ultId ↔
      c ∈ s.contacts ∧
      ((c.id == ultId || c.linkedId == some ultId) && c.deletedAt == none) = true := by
  unfold finalGroupContacts
  rw [mem_insertionSort, List.mem_filter]

theorem primaryInFinalGroup_of_first (G : List Contact) (ult : Contact) (q : Contact)
    (h1 : G.find? (fun c => c.id == ult.id && decide (c.linkPrecedence = .primary))
      = some q) :
    primaryInFinalGroup G ult = q ∧ q.id = ult.id ∧ q.linkPrecedence = .primary := by
  have hp := List.find?_some h1
  rw [Bool.and_eq_true] at hp
  refine ⟨?_, by simpa using hp.1, by simpa using hp.2⟩
  unfold primaryInFinalGroup
  rw [h1]
  rfl

theorem primaryInFinalGroup_mem (G : List Contact) (ult : Contact) (hG : G ≠ []) :
    primaryInFinalGroup G ult ∈ G := by
  unfold primaryInFinalGroup
  cases h1 : G.find? fun c => c.id == ult.id && decide (c.linkPrecedence = .primary) with
  | some q =>
    show q ∈ G
    exact List.mem_of_find?_eq_some h1
  | none =>
    cases h2 : G.find? fun c => decide (c.linkPrecedence = .primary) with
    | some q =>
      show q ∈ G
      exact List.mem_of_find?_eq_some h2
    | none =>
      cases G with
      | nil => exact absurd rfl hG
      | cons c cs =>
        show c ∈ c :: cs
        exact List.mem_cons_self c cs

/-! ### Ultimate-primary lemmas -/

theorem ultimateOf?_mem (email phoneNumber : Option String) (s : Store) (u : Contact)
    (h : ultimateOf? email phoneNumber s = some u) :
    u ∈ s.contacts ∧ u.deletedAt = none := by
  unfold ultimateOf? at h
  split at h
  · cases h
  · rename_i m0 ms hm
    split at h
    · rename_i u' rest' hu
      cases h
      have hmem : u ∈ uniquePrimaryContacts email phoneNumber s := by
        rw [hu]
        exact List.mem_cons_self u rest'
      have := uniquePrimaryContacts_mem email phoneNumber s u hmem
      exact ⟨this.1, this.2.1⟩
    · rename_i hu
      have hm0 : m0 ∈ matchingContacts email phoneNumber s := by
        rw [hm]
        exact List.mem_cons_self m0 ms
      have hm0live := matchingContacts_live email phoneNumber s m0 hm0
      split at h
      · split at h
        · split at h
          · cases h
            exact hm0live
          · split at h
            · rename_i fp hfp
              cases h
              have := findByIdLive_some s _ u hfp
              exact ⟨this.1, this.2.2⟩
            · cases h
        · cases h
          exact hm0live
      · cases h
        exact hm0live

theorem identify_reaches_mainPath (email0 phoneNumber0 : Option String) (s0 : Store)
    (u : Contact)
    (h : ultimateOf? (truthyStr email0) (truthyStr phoneNumber0) s0 = some u) :
    ∃ us, identifyContact email0 phoneNumber0 s0 =
      mainPath s0 u us (truthyStr email0) (truthyStr phoneNumber0) := by
  unfold ultimateOf? at h
  unfold identifyContact
  split at h
  · cases h
  · rename_i m0 ms hm
    split at h
    · rename_i u' rest' hu
      cases h
      exact ⟨demotionUpdates s0 u.id rest', rfl⟩
    · rename_i hu
      unfold fallbackPath
      split at h
      · rename_i hsec
        rw [if_pos hsec]
        split at h
        · rename_i l hlid
          split at h
          · rename_i hl0
            cases h
            rw [if_pos hl0]
            exact ⟨[], rfl⟩
          · rename_i hl0
            rw [if_neg hl0]
            split at h
            · rename_i fp hfp
              cases h
              exact ⟨[], rfl⟩
            · cases h
        · rename_i hlid
          cases h
          exact ⟨[], rfl⟩
      · rename_i hsec
        rw [if_neg hsec]
        cases h
        exact ⟨[], rfl⟩

theorem finalGroup_ne_nil_of (s' : Store) (ultId : Nat) (c : Contact)
    (hc : c ∈ s'.contacts) (hid : c.id = ultId) (hlive : c.deletedAt = none) :
    finalGroupContacts s' ultId ≠ [] := by
  intro hnil
  have hmem : c ∈ finalGroupContacts s' ultId := by
    rw [mem_finalGroupContacts]
    exact ⟨hc, by simp [hid, hlive]⟩
  rw [hnil] at hmem
  exact absurd hmem (List.not_mem_nil c)

theorem mainPath_finalGroup_ne_nil (s0 : Store) (ult : Contact) (us0 : List Contact)
    (email phoneNumber : Option String)
    (hmem : ult ∈ s0.contacts) (hlive : ult.deletedAt = none) :
    finalGroupContacts (mainPath s0 ult us0 email phoneNumber).store ult.id ≠ [] := by
  cases hflag : (shouldCreateOf email phoneNumber (allRelatedContactsOf s0 ult.id us0) &&
      !(exactMatchExistsOf email phoneNumber (allRelatedContactsOf s0 ult.id us0))) with
  | true =>
    obtain ⟨hc, _⟩ := mainPath_store_create s0 ult us0 email phoneNumber hflag
    refine finalGroup_ne_nil_of _ _
      (applyAll (us0 ++ [newContact s0 email phoneNumber (some ult.id) .secondary]) ult)
      ?_ (applyAll_id _ _) (by rw [applyAll_deletedAt]; exact hlive)
    rw [hc]
    exact List.mem_map_of_mem _ (List.mem_append_left _ hmem)
  | false =>
    obtain ⟨hc, _⟩ := mainPath_store_nocreate s0 ult us0 email phoneNumber hflag
    refine finalGroup_ne_nil_of _ _ (applyAll us0 ult)
      ?_ (applyAll_id _ _) (by rw [applyAll_deletedAt]; exact hlive)
    rw [hc]
    exact List.mem_map_of_mem _ hmem

/-- Claim C10 (confirmed): when a call reaches the result-building step with
planned ultimate primary `u`, the re-fetched final cluster around `u.id` is
non-empty, the reported `primaryContatctId` is the id of one of its rows —
never of a contact outside it — and if the final cluster still holds the row
`u.id` as a primary, the reported id is exactly `u.id`. -/
theorem C10_theorem (email0 phoneNumber0 : Option String) (s0 : Store) (u : Contact)
    (h : ultimateOf? (truthyStr email0) (truthyStr phoneNumber0) s0 = some u) :
    finalGroupContacts (identifyContact email0 phoneNumber0 s0).store u.id ≠ [] ∧
    (∃ c ∈ finalGroupContacts (identifyContact email0 phoneNumber0 s0).store u.id,
      (identifyContact email0 phoneNumber0 s0).response.contact.primaryContatctId = c.id) ∧
    ((∃ c ∈ finalGroupContacts (identifyContact email0 phoneNumber0 s0).store u.id,
        c.id = u.id ∧ c.linkPrecedence = .primary) →
      (identifyContact email0 phoneNumber0 s0).response.contact.primaryContatctId = u.id) := by
  obtain ⟨hmem, hlive⟩ := ultimateOf?_mem _ _ _ u h
  obtain ⟨us, hus⟩ := identify_reaches_mainPath _ _ _ u h
  rw [hus]
  have hne := mainPath_finalGroup_ne_nil s0 u us
    (truthyStr email0) (truthyStr phoneNumber0) hmem hlive
  refine ⟨hne, ?_, ?_⟩
  · rw [mainPath_response, formatResponse_primaryContatctId]
    exact ⟨primaryInFinalGroup
      (finalGroupContacts
        (mainPath s0 u us (truthyStr email0) (truthyStr phoneNumber0)).store u.id) u,
      primaryInFinalGroup_mem _ _ hne, rfl⟩
  · rintro ⟨c, hcG, hcid, hcprim⟩
    rw [mainPath_response, formatResponse_primaryContatctId]
    have hex : ∃ x, x ∈ finalGroupContacts
        (mainPath s0 u us (truthyStr email0) (truthyStr phoneNumber0)).store u.id ∧
        (x.id == u.id && decide (x.linkPrecedence = .primary)) = true :=
      ⟨c, hcG, by simp [hcid, hcprim]⟩
    rw [← List.find?_isSome] at hex
    obtain ⟨q, hq⟩ := Option.isSome_iff_exists.mp hex
    obtain ⟨heq, hqid, _⟩ := primaryInFinalGroup_of_first _ u q hq
    rw [heq, hqid]

/-- Witness for C10 at the concrete merge of `S4`. -/
theorem C10_witness :
    (ultimateOf? (truthyStr (some "a@x.com")) (truthyStr (some "111")) S4 =
      some { id := 1, email := some "a@x.com", phoneNumber := none, linkedId := none,
             linkPrecedence := .primary, createdAt := 1, deletedAt := none }) ∧
    (finalGroupContacts (identifyContact (some "a@x.com") (some "111") S4).store 1 ≠ [] ∧
     (∃ c ∈ finalGroupContacts (identifyContact (some "a@x.com") (some "111") S4).store 1,
       (identifyContact (some "a@x.com") (some "111") S4).response.contact.primaryContatctId
         = c.id) ∧
     ((∃ c ∈ finalGroupContacts (identifyContact (some "a@x.com") (some "111") S4).store 1,
        c.id = 1 ∧ c.linkPrecedence = .primary) →
      (identifyContact (some "a@x.com") (some "111") S4).response.contact.primaryContatctId
        = 1)) :=
  ⟨by decide, C10_theorem (some "a@x.com") (some "111") S4
    { id := 1, email := some "a@x.com", phoneNumber := none, linkedId := none,
      linkPrecedence := .primary, createdAt := 1, deletedAt := none } (by decide)⟩

/-- Claim C3 (amended): a call performs at most two commits; the demotions
and re-links are applied as one atomic transaction (the final commit, which
creates nothing), but the optional new secondary is created in its own
earlier commit, so a failure between the two leaves the created row behind. -/
theorem C3_amended_theorem (email0 phoneNumber0 : Option String) (s0 : Store) :
    ((identifyContact email0 phoneNumber0 s0).commits = [] ∧
      (identifyContact email0 phoneNumber0 s0).store = s0) ∨
    ((identifyContact email0 phoneNumber0 s0).commits =
      [(identifyContact email0 phoneNumber0 s0).store]) ∨
    (∃ c us,
      (identifyContact email0 phoneNumber0 s0).created = some c ∧
      (identifyContact email0 phoneNumber0 s0).commits =
        [{ contacts := s0.contacts ++ [c], nextId := s0.nextId + 1, now := s0.now + 1 },
         applyUpdates { contacts := s0.contacts ++ [c], nextId := s0.nextId + 1,
                        now := s0.now + 1 } us] ∧
      (identifyContact email0 phoneNumber0 s0).store =
        applyUpdates { contacts := s0.contacts ++ [c], nextId := s0.nextId + 1,
                       now := s0.now + 1 } us) := by
  unfold identifyContact freshPrimaryResult fallbackPath mainPath finishPath createContact
  repeat' split
  all_goals
    first
      | exact Or.inl ⟨rfl, rfl⟩
      | exact Or.inr (Or.inl rfl)
      | exact Or.inr (Or.inr ⟨_, _, rfl, rfl, rfl⟩)

/-- Claim C8 (amended): every identify result is serialised with a single
top-level field `contact` holding the four fields `primaryContatctId` (so
spelled), `emails`, `phoneNumbers` and `secondaryContactIds`, and the
response is always the output of the result builder, whose first field
carries the id of the primary row it selected. -/
theorem C8_amended_theorem (email0 phoneNumber0 : Option String) (s0 : Store) :
    (identifyContact email0 phoneNumber0 s0).response.toJson =
      Json.obj [("contact", Json.obj
        [("primaryContatctId",
          Json.num (identifyContact email0 phoneNumber0 s0).response.contact.primaryContatctId),
         ("emails", Json.arr
          ((identifyContact email0 phoneNumber0 s0).response.contact.emails.map Json.str)),
         ("phoneNumbers", Json.arr
          ((identifyContact email0 phoneNumber0 s0).response.contact.phoneNumbers.map
            Json.str)),
         ("secondaryContactIds", Json.arr
          ((identifyContact email0 phoneNumber0 s0).response.contact.secondaryContactIds.map
            Json.num))])] ∧
    (identifyContact email0 phoneNumber0 s0).response.toJson.topKeys = ["contact"] ∧
    (∃ p g, (identifyContact email0 phoneNumber0 s0).response = formatResponse p g ∧
      (identifyContact email0 phoneNumber0 s0).response.contact.primaryContatctId = p.id) := by
  refine ⟨rfl, rfl, ?_⟩
  unfold identifyContact freshPrimaryResult fallbackPath mainPath finishPath
  repeat' split
  all_goals exact ⟨_, _, rfl, rfl⟩

theorem mainPath_untouched_mem (s0 : Store) (ult : Contact) (us0 : List Contact)
    (email phoneNumber : Option String) (r : Contact)
    (hr : r ∈ s0.contacts)
    (hnomatch : ∀ v ∈ us0, v.id ≠ r.id)
    (hltn : r.id < s0.nextId) :
    r ∈ (mainPath s0 ult us0 email phoneNumber).store.contacts := by
  cases hflag : (shouldCreateOf email phoneNumber (allRelatedContactsOf s0 ult.id us0) &&
      !(exactMatchExistsOf email phoneNumber (allRelatedContactsOf s0 ult.id us0))) with
  | true =>
    obtain ⟨hc, _⟩ := mainPath_store_create s0 ult us0 email phoneNumber hflag
    rw [hc]
    have happ : applyAll (us0 ++ [newContact s0 email phoneNumber (some ult.id) .secondary])
        r = r := by
      apply applyAll_of_no_match
      intro v hv
      rcases List.mem_append.mp hv with hv0 | hvn
      · exact hnomatch v hv0
      · rw [List.mem_singleton] at hvn
        subst hvn
        show s0.nextId ≠ r.id
        omega
    rw [← happ]
    exact List.mem_map_of_mem _ (List.mem_append_left _ hr)
  | false =>
    obtain ⟨hc, _⟩ := mainPath_store_nocreate s0 ult us0 email phoneNumber hflag
    rw [hc]
    have happ : applyAll us0 r = r := applyAll_of_no_match us0 r hnomatch
    rw [← happ]
    exact List.mem_map_of_mem _ hr

theorem mainPath_resp_id (s0 : Store) (ult : Contact) (us0 : List Contact)
    (email phoneNumber : Option String)
    (hmem : ult ∈ (mainPath s0 ult us0 email phoneNumber).store.contacts)
    (hlive : ult.deletedAt = none) (hprim : ult.linkPrecedence = .primary) :
    (mainPath s0 ult us0 email phoneNumber).response.contact.primaryContatctId = ult.id := by
  rw [mainPath_response, formatResponse_primaryContatctId]
  have hG : ult ∈ finalGroupContacts (mainPath s0 ult us0 email phoneNumber).store ult.id := by
    rw [mem_finalGroupContacts]
    exact ⟨hmem, by simp [hlive]⟩
  have hex : ∃ x, x ∈ finalGroupContacts (mainPath s0 ult us0 email phoneNumber).store ult.id ∧
      (x.id == ult.id && decide (x.linkPrecedence = .primary)) = true :=
    ⟨ult, hG, by simp [hprim]⟩
  rw [← List.find?_isSome] at hex
  obtain ⟨q, hq⟩ := Option.isSome_iff_exists.mp hex
  obtain ⟨heq, hqid, _⟩ := primaryInFinalGroup_of_first _ ult q hq
  rw [heq, hqid]

/-- Claim C1 (amended): when the match set resolves to more than one distinct
primary and the resolved primaries carry pairwise distinct `createdAt`
stamps, the ultimate primary is the resolved primary with the earliest
`(createdAt, id)` (here simply the earliest `createdAt`), every other
resolved primary's row ends the call demoted — `linkPrecedence = secondary`,
`linkedId` = the ultimate's id — and the response's `primaryContatctId` is
the ultimate primary's id.  (On `createdAt` ties the code instead keeps
whichever tied primary was resolved first, as the counterexample shows.) -/
theorem C1_amended_theorem (email0 phoneNumber0 : Option String) (s0 : Store)
    (u : Contact) (rest : List Contact)
    (hwf : Store.WF s0) (hroot : PrimaryRootInv s0)
    (hu : uniquePrimaryContacts (truthyStr email0) (truthyStr phoneNumber0) s0 = u :: rest)
    (_hne : rest ≠ [])
    (hdist : (u :: rest).Pairwise fun a b => a.createdAt ≠ b.createdAt) :
    (∀ d ∈ rest, u.createdAt < d.createdAt) ∧
    (∀ d ∈ rest, ∀ c' ∈ (identifyContact email0 phoneNumber0 s0).store.contacts,
      c'.id = d.id → c'.linkPrecedence = .secondary ∧ c'.linkedId = some u.id) ∧
    (identifyContact email0 phoneNumber0 s0).response.contact.primaryContatctId = u.id := by
  have hmemAll : ∀ x ∈ u :: rest,
      x ∈ s0.contacts ∧ x.deletedAt = none ∧ x.linkPrecedence = .primary := by
    intro x hx
    exact uniquePrimaryContacts_mem _ _ _ x (hu ▸ hx)
  have hids : ((u :: rest).map fun c => c.id).Nodup := by
    rw [← hu]
    exact uniquePrimaryContacts_nodupIds _ _ _
  have hsorted : List.Sorted createdLE (u :: rest) := by
    rw [← hu]
    exact uniquePrimaryContacts_sorted _ _ _
  have humem := hmemAll u (List.mem_cons_self u rest)
  have hrestf : ∀ d ∈ rest,
      d ∈ s0.contacts ∧ d.deletedAt = none ∧ d.linkPrecedence = .primary :=
    fun d hd => hmemAll d (List.mem_cons_of_mem u hd)
  have hno_u : ∀ v ∈ demotionUpdates s0 u.id rest, v.id ≠ u.id :=
    demotionUpdates_id_ne s0 u rest hwf hroot humem.1 humem.2.1 humem.2.2 hids
      fun d hd => (hrestf d hd).1
  have hult_lt : u.id < s0.nextId := (hwf.2.1 u humem.1).2.1
  rw [identify_eq_mainPath email0 phoneNumber0 s0 u rest hu]
  refine ⟨?_, ?_, ?_⟩
  · intro d hd
    have hle : createdLE u d := List.rel_of_sorted_cons hsorted d hd
    have hne' : u.createdAt ≠ d.createdAt := List.rel_of_pairwise_cons hdist hd
    exact lt_of_le_of_ne hle hne'
  · intro d hd c' hc' hcid
    have hdf := hrestf d hd
    have hdlt : d.id < s0.nextId := (hwf.2.1 d hdf.1).2.1
    have hdd_mem : ({ d with linkedId := some u.id, linkPrecedence := .secondary })
        ∈ demotionUpdates s0 u.id rest := by
      rw [mem_demotionUpdates]
      exact Or.inl ⟨d, hd, rfl⟩
    have huniq := demotionUpdates_unique_for s0 u rest d hwf hroot hd hrestf
    cases hflag : (shouldCreateOf (truthyStr email0) (truthyStr phoneNumber0)
        (allRelatedContactsOf s0 u.id (demotionUpdates s0 u.id rest)) &&
        !(exactMatchExistsOf (truthyStr email0) (truthyStr phoneNumber0)
          (allRelatedContactsOf s0 u.id (demotionUpdates s0 u.id rest)))) with
    | true =>
      obtain ⟨hsc, _⟩ := mainPath_store_create s0 u (demotionUpdates s0 u.id rest)
        (truthyStr email0) (truthyStr phoneNumber0) hflag
      rw [hsc] at hc'
      obtain ⟨r, hr, hrc⟩ := List.mem_map.mp hc'
      have hrid : r.id = d.id := by rw [← hcid, ← hrc, applyAll_id]
      rcases List.mem_append.mp hr with hr0 | hrnc
      · have hrd : r = d := nodupIds_eq_of_id_eq hwf.1 hr0 hdf.1 hrid
        subst hrd
        have happ : applyAll (demotionUpdates s0 u.id rest ++
            [newContact s0 (truthyStr email0) (truthyStr phoneNumber0)
              (some u.id) .secondary]) r =
            overwrite r { r with linkedId := some u.id, linkPrecedence := .secondary } := by
          apply applyAll_single
          · exact List.mem_append_left _ hdd_mem
          · rfl
          · intro v hv hvid
            rcases List.mem_append.mp hv with hv0 | hvn
            · exact huniq v hv0 hvid
            · rw [List.mem_singleton] at hvn
              subst hvn
              exfalso
              have : s0.nextId = r.id := hvid
              omega
        rw [← hrc, happ]
        exact ⟨rfl, rfl⟩
      · rw [List.mem_singleton] at hrnc
        subst hrnc
        exfalso
        have : s0.nextId = d.id := hrid
        omega
    | false =>
      obtain ⟨hsc, _⟩ := mainPath_store_nocreate s0 u (demotionUpdates s0 u.id rest)
        (truthyStr email0) (truthyStr phoneNumber0) hflag
      rw [hsc] at hc'
      obtain ⟨r, hr, hrc⟩ := List.mem_map.mp hc'
      have hrid : r.id = d.id := by rw [← hcid, ← hrc, applyAll_id]
      have hrd : r = d := nodupIds_eq_of_id_eq hwf.1 hr hdf.1 hrid
      subst hrd
      have happ : applyAll (demotionUpdates s0 u.id rest) r =
          overwrite r { r with linkedId := some u.id, linkPrecedence := .secondary } :=
        applyAll_single _ _ _ hdd_mem rfl huniq
      rw [← hrc, happ]
      exact ⟨rfl, rfl⟩
  · apply mainPath_resp_id
    · apply mainPath_untouched_mem s0 u (demotionUpdates s0 u.id rest)
        (truthyStr email0) (truthyStr phoneNumber0) u humem.1 hno_u hult_lt
    · exact humem.2.1
    · exact humem.2.2

/-- Witness for the amended C1 at the concrete merge of `S4`. -/
theorem C1_witness :
    (Store.WF S4 ∧ PrimaryRootInv S4 ∧
     uniquePrimaryContacts (truthyStr (some "a@x.com")) (truthyStr (some "111")) S4 =
       [{ id := 1, email := some "a@x.com", phoneNumber := none, linkedId := none,
          linkPrecedence := .primary, createdAt := 1, deletedAt := none },
        { id := 2, email := none, phoneNumber := some "111", linkedId := none,
          linkPrecedence := .primary, createdAt := 2, deletedAt := none }]) ∧
    ((∀ d, d ∈ ([{ id := 2, email := none, phoneNumber := some "111", linkedId := none,
                    linkPrecedence := .primary, createdAt := 2,
                    deletedAt := none }] : List Contact) →
        (1 : Nat) < d.createdAt) ∧
     (∀ d, d ∈ ([{ id := 2, email := none, phoneNumber := some "111", linkedId := none,
                    linkPrecedence := .primary, createdAt := 2,
                    deletedAt := none }] : List Contact) →
       ∀ c' ∈ (identifyContact (some "a@x.com") (some "111") S4).store.contacts,
         c'.id = d.id → c'.linkPrecedence = .secondary ∧ c'.linkedId = some 1) ∧
     (identifyContact (some "a@x.com") (some "111") S4).response.contact.primaryContatctId
       = 1) :=
  ⟨⟨by decide, by decide, by decide⟩,
   C1_amended_theorem (some "a@x.com") (some "111") S4
     { id := 1, email := some "a@x.com", phoneNumber := none, linkedId := none,
       linkPrecedence := .primary, createdAt := 1, deletedAt := none }
     [{ id := 2, email := none, phoneNumber := some "111", linkedId := none,
        linkPrecedence := .primary, createdAt := 2, deletedAt := none }]
     (by decide) (by decide) (by decide) (by decide) (by decide)⟩

theorem createFlag_iff (email phoneNumber : Option String) (related : List Contact) :
    (shouldCreateOf email phoneNumber related &&
      !(exactMatchExistsOf email phoneNumber related)) = true ↔
      (((∃ e, email = some e ∧ e ∉ nonNullEmails related) ∨
        (∃ ph, phoneNumber = some ph ∧ ph ∉ nonNullPhones related)) ∧
       ¬ ∃ c ∈ related, c.email = email ∧ c.phoneNumber = phoneNumber) := by
  unfold shouldCreateOf isNewEmailOf isNewPhoneOf exactMatchExistsOf
  cases email with
  | none =>
    cases phoneNumber with
    | none => simp
    | some ph => simp [List.any_eq_true]
  | some e =>
    cases phoneNumber with
    | none => simp [List.any_eq_true]
    | some ph => simp [List.any_eq_true]

theorem overwrite_self (c : Contact) : overwrite c c = c := rfl

/-- Claim C4 (amended): the novelty sets are the non-null, non-empty emails
and phones of `allRelatedContacts` — the fetched current cluster of the
ultimate primary, with pending updates reflected only for rows already in
it; rows merged in by this very call (demoted primaries and their
re-pointed secondaries) are not part of it.  A new secondary is created
exactly when the fragment is novel with respect to those sets and no exact
`(email, phoneNumber)` duplicate exists in that same fetched group; the
created row carries the fragment's fields, `linkedId` = ultimate primary id
and `linkPrecedence = secondary`. -/
theorem C4_amended_theorem (email0 phoneNumber0 : Option String) (s0 : Store)
    (u : Contact) (rest : List Contact)
    (hwf : Store.WF s0)
    (hu : uniquePrimaryContacts (truthyStr email0) (truthyStr phoneNumber0) s0 = u :: rest) :
    ((identifyContact email0 phoneNumber0 s0).created.isSome = true ↔
      (((∃ e, truthyStr email0 = some e ∧
            e ∉ nonNullEmails (allRelatedContactsOf s0 u.id (demotionUpdates s0 u.id rest))) ∨
        (∃ ph, truthyStr phoneNumber0 = some ph ∧
            ph ∉ nonNullPhones (allRelatedContactsOf s0 u.id (demotionUpdates s0 u.id rest)))) ∧
       ¬ ∃ c ∈ allRelatedContactsOf s0 u.id (demotionUpdates s0 u.id rest),
           c.email = truthyStr email0 ∧ c.phoneNumber = truthyStr phoneNumber0)) ∧
    (∀ c, (identifyContact email0 phoneNumber0 s0).created = some c →
      c.email = truthyStr email0 ∧ c.phoneNumber = truthyStr phoneNumber0 ∧
      c.linkedId = some u.id ∧ c.linkPrecedence = .secondary ∧
      c ∈ (identifyContact email0 phoneNumber0 s0).store.contacts) := by
  have hmemAll : ∀ x ∈ u :: rest,
      x ∈ s0.contacts ∧ x.deletedAt = none ∧ x.linkPrecedence = .primary := by
    intro x hx
    exact uniquePrimaryContacts_mem _ _ _ x (hu ▸ hx)
  have hrestf : ∀ d ∈ rest, d ∈ s0.contacts :=
    fun d hd => (hmemAll d (List.mem_cons_of_mem u hd)).1
  have hlt : ∀ v ∈ demotionUpdates s0 u.id rest, v.id < s0.nextId :=
    demotionUpdates_id_lt s0 u.id rest hwf hrestf
  rw [identify_eq_mainPath email0 phoneNumber0 s0 u rest hu]
  rw [← createFlag_iff (truthyStr email0) (truthyStr phoneNumber0)
    (allRelatedContactsOf s0 u.id (demotionUpdates s0 u.id rest))]
  cases hflag : (shouldCreateOf (truthyStr email0) (truthyStr phoneNumber0)
      (allRelatedContactsOf s0 u.id (demotionUpdates s0 u.id rest)) &&
      !(exactMatchExistsOf (truthyStr email0) (truthyStr phoneNumber0)
        (allRelatedContactsOf s0 u.id (demotionUpdates s0 u.id rest)))) with
  | true =>
    obtain ⟨hsc, hcr⟩ := mainPath_store_create s0 u (demotionUpdates s0 u.id rest)
      (truthyStr email0) (truthyStr phoneNumber0) hflag
    rw [hcr]
    refine ⟨by simp, ?_⟩
    intro c hc
    cases hc
    refine ⟨rfl, rfl, rfl, rfl, ?_⟩
    rw [hsc]
    have happ : applyAll (demotionUpdates s0 u.id rest ++
        [newContact s0 (truthyStr email0) (truthyStr phoneNumber0) (some u.id) .secondary])
        (newContact s0 (truthyStr email0) (truthyStr phoneNumber0) (some u.id) .secondary) =
        newContact s0 (truthyStr email0) (truthyStr phoneNumber0) (some u.id) .secondary := by
      rw [applyAll_single _ _
        (newContact s0 (truthyStr email0) (truthyStr phoneNumber0) (some u.id) .secondary)
        (List.mem_append_right _ (List.mem_singleton_self _)) rfl ?_, overwrite_self]
      intro v hv hvid
      rcases List.mem_append.mp hv with hv0 | hvn
      · exfalso
        have h1 := hlt v hv0
        have h2 : v.id = s0.nextId := hvid
        omega
      · rw [List.mem_singleton] at hvn
        exact hvn
    have hmem0 := List.mem_map_of_mem
      (applyAll (demotionUpdates s0 u.id rest ++
        [newContact s0 (truthyStr email0) (truthyStr phoneNumber0) (some u.id) .secondary]))
      (List.mem_append_right s0.contacts (List.mem_singleton_self
        (newContact s0 (truthyStr email0) (truthyStr phoneNumber0) (some u.id) .secondary)))
    rw [happ] at hmem0
    exact hmem0
  | false =>
    obtain ⟨hsc, hcr⟩ := mainPath_store_nocreate s0 u (demotionUpdates s0 u.id rest)
      (truthyStr email0) (truthyStr phoneNumber0) hflag
    rw [hcr]
    refine ⟨by simp, ?_⟩
    intro c hc
    cases hc

/-- Witness for the amended C4 at the concrete merge of `S4`. -/
theorem C4_witness :
    (Store.WF S4 ∧
     uniquePrimaryContacts (truthyStr (some "a@x.com")) (truthyStr (some "111")) S4 =
       [{ id := 1, email := some "a@x.com", phoneNumber := none, linkedId := none,
          linkPrecedence := .primary, createdAt := 1, deletedAt := none },
        { id := 2, email := none, phoneNumber := some "111", linkedId := none,
          linkPrecedence := .primary, createdAt := 2, deletedAt := none }]) ∧
    (((identifyContact (some "a@x.com") (some "111") S4).created.isSome = true ↔
      (((∃ e, truthyStr (some "a@x.com") = some e ∧
            e ∉ nonNullEmails (allRelatedContactsOf S4 1 (demotionUpdates S4 1
              [{ id := 2, email := none, phoneNumber := some "111", linkedId := none,
                 linkPrecedence := .primary, createdAt := 2, deletedAt := none }]))) ∨
        (∃ ph, truthyStr (some "111") = some ph ∧
            ph ∉ nonNullPhones (allRelatedContactsOf S4 1 (demotionUpdates S4 1
              [{ id := 2, email := none, phoneNumber := some "111", linkedId := none,
                 linkPrecedence := .primary, createdAt := 2, deletedAt := none }])))) ∧
       ¬ ∃ c ∈ allRelatedContactsOf S4 1 (demotionUpdates S4 1
              [{ id := 2, email := none, phoneNumber := some "111", linkedId := none,
                 linkPrecedence := .primary, createdAt := 2, deletedAt := none }]),
           c.email = truthyStr (some "a@x.com") ∧
           c.phoneNumber = truthyStr (some "111"))) ∧
    (∀ c, (identifyContact (some "a@x.com") (some "111") S4).created = some c →
      c.email = truthyStr (some "a@x.com") ∧ c.phoneNumber = truthyStr (some "111") ∧
      c.linkedId = some 1 ∧ c.linkPrecedence = .secondary ∧
      c ∈ (identifyContact (some "a@x.com") (some "111") S4).store.contacts)) :=
  ⟨⟨by decide, by decide⟩,
   C4_amended_theorem (some "a@x.com") (some "111") S4
     { id := 1, email := some "a@x.com", phoneNumber := none, linkedId := none,
       linkPrecedence := .primary, createdAt := 1, deletedAt := none }
     [{ id := 2, email := none, phoneNumber := some "111", linkedId := none,
        linkPrecedence := .primary, createdAt := 2, deletedAt := none }]
     (by decide) (by decide)⟩

theorem identify_eq_fallbackPath (email0 phoneNumber0 : Option String) (s0 : Store)
    (m0 : Contact) (ms : List Contact)
    (hm : matchingContacts (truthyStr email0) (truthyStr phoneNumber0) s0 = m0 :: ms)
    (hup : uniquePrimaryContacts (truthyStr email0) (truthyStr phoneNumber0) s0 = []) :
    identifyContact email0 phoneNumber0 s0 =
      fallbackPath s0 m0 (truthyStr email0) (truthyStr phoneNumber0) := by
  unfold identifyContact
  split
  · rename_i h0
    rw [h0] at hm
    cases hm
  · rename_i m0' ms' h0
    rw [h0] at hm
    injection hm with h1 h2
    subst h1
    split
    · rename_i u rest h3
      rw [h3] at hup
      cases hup
    · rfl

/-- Claim C5 (amended): when the match set resolves to zero primaries, the
engine inspects the oldest matched row; if it is a secondary whose non-null
`linkedId` refers to a missing (or soft-deleted) row, the engine creates a
fresh primary from the request and returns it alone; if the referent exists,
that row — whatever its precedence — is used as the cluster primary; in all
other cases the oldest matched row itself is used as the cluster primary.
No in-place promotion ever happens: no pre-existing row is rewritten by the
fallback, only a new row may be appended. -/
theorem C5_amended_theorem (email0 phoneNumber0 : Option String) (s0 : Store)
    (m0 : Contact) (ms : List Contact)
    (hm : matchingContacts (truthyStr email0) (truthyStr phoneNumber0) s0 = m0 :: ms)
    (hup : uniquePrimaryContacts (truthyStr email0) (truthyStr phoneNumber0) s0 = []) :
    (m0.linkPrecedence = .secondary → ∀ l, m0.linkedId = some l → l ≠ 0 →
      findByIdLive s0 l = none →
      (identifyContact email0 phoneNumber0 s0).store =
        createContact s0 (truthyStr email0) (truthyStr phoneNumber0) none .primary ∧
      (identifyContact email0 phoneNumber0 s0).response =
        formatResponse
          (newContact s0 (truthyStr email0) (truthyStr phoneNumber0) none .primary) []) ∧
    (m0.linkPrecedence = .secondary → ∀ l fp, m0.linkedId = some l → l ≠ 0 →
      findByIdLive s0 l = some fp →
      identifyContact email0 phoneNumber0 s0 =
        mainPath s0 fp [] (truthyStr email0) (truthyStr phoneNumber0)) ∧
    ((¬ m0.linkPrecedence = .secondary ∨ m0.linkedId = none ∨ m0.linkedId = some 0) →
      identifyContact email0 phoneNumber0 s0 =
        mainPath s0 m0 [] (truthyStr email0) (truthyStr phoneNumber0)) ∧
    (Store.WF s0 → ∀ r ∈ s0.contacts,
      r ∈ (identifyContact email0 phoneNumber0 s0).store.contacts) := by
  rw [identify_eq_fallbackPath email0 phoneNumber0 s0 m0 ms hm hup]
  refine ⟨?_, ?_, ?_, ?_⟩
  · intro hsec l hlid hl hf
    unfold fallbackPath
    rw [if_pos hsec, hlid]
    constructor
    · show IdentifyResult.store (if l = 0 then _ else _) = _
      rw [if_neg hl, hf]
      rfl
    · show IdentifyResult.response (if l = 0 then _ else _) = _
      rw [if_neg hl, hf]
      rfl
  · intro hsec l fp hlid hl hf
    unfold fallbackPath
    rw [if_pos hsec, hlid]
    show (if l = 0 then _ else _) = _
    rw [if_neg hl, hf]
  · intro hcase
    unfold fallbackPath
    by_cases hsec : m0.linkPrecedence = .secondary
    · rw [if_pos hsec]
      rcases hcase with hnp | hnone | h0
      · exact absurd hsec hnp
      · rw [hnone]
      · rw [h0]
        show (if (0 : Nat) = 0 then _ else _) = _
        rw [if_pos rfl]
    · rw [if_neg hsec]
  · intro hwf r hr
    have hlt : r.id < s0.nextId := (hwf.2.1 r hr).2.1
    have hnomatch : ∀ v ∈ ([] : List Contact), v.id ≠ r.id :=
      fun v hv => absurd hv (List.not_mem_nil v)
    unfold fallbackPath
    split
    · split
      · rename_i l
        split
        · exact mainPath_untouched_mem s0 m0 [] _ _ r hr hnomatch hlt
        · split
          · exact mainPath_untouched_mem s0 _ [] _ _ r hr hnomatch hlt
          · show r ∈ s0.contacts ++ [_]
            exact List.mem_append_left _ hr
      · exact mainPath_untouched_mem s0 m0 [] _ _ r hr hnomatch hlt
    · exact mainPath_untouched_mem s0 m0 [] _ _ r hr hnomatch hlt

/-- Witness for the amended C5 on the dangling-secondary store `S5`. -/
theorem C5_witness :
    (matchingContacts (truthyStr (some "a@x.com")) (truthyStr none) S5 =
      [{ id := 1, email := some "a@x.com", phoneNumber := none, linkedId := some 5,
         linkPrecedence := .secondary, createdAt := 1, deletedAt := none }] ∧
     uniquePrimaryContacts (truthyStr (some "a@x.com")) (truthyStr none) S5 = []) ∧
    ((LinkPrecedence.secondary = LinkPrecedence.secondary →
      ∀ l, (some 5 : Option Nat) = some l → l ≠ 0 →
      findByIdLive S5 l = none →
      (identifyContact (some "a@x.com") none S5).store =
        createContact S5 (truthyStr (some "a@x.com")) (truthyStr none) none .primary ∧
      (identifyContact (some "a@x.com") none S5).response =
        formatResponse
          (newContact S5 (truthyStr (some "a@x.com")) (truthyStr none) none .primary) []) ∧
     (LinkPrecedence.secondary = LinkPrecedence.secondary →
      ∀ l fp, (some 5 : Option Nat) = some l → l ≠ 0 →
      findByIdLive S5 l = some fp →
      identifyContact (some "a@x.com") none S5 =
        mainPath S5 fp [] (truthyStr (some "a@x.com")) (truthyStr none)) ∧
     ((¬ LinkPrecedence.secondary = LinkPrecedence.secondary ∨
       (some 5 : Option Nat) = none ∨ (some 5 : Option Nat) = some 0) →
      identifyContact (some "a@x.com") none S5 =
        mainPath S5
          { id := 1, email := some "a@x.com", phoneNumber := none, linkedId := some 5,
            linkPrecedence := .secondary, createdAt := 1, deletedAt := none }
          [] (truthyStr (some "a@x.com")) (truthyStr none)) ∧
     (Store.WF S5 → ∀ r ∈ S5.contacts,
       r ∈ (identifyContact (some "a@x.com") none S5).store.contacts)) :=
  ⟨⟨by decide, by decide⟩,
   C5_amended_theorem (some "a@x.com") none S5
     { id := 1, email := some "a@x.com", phoneNumber := none, linkedId := some 5,
       linkPrecedence := .secondary, createdAt := 1, deletedAt := none } []
     (by decide) (by decide)⟩

/-! ### One-hop preservation -/

theorem freshPrimary_OneHop (s0 : Store) (email phoneNumber : Option String)
    (hhop : OneHopInv s0) :
    OneHopInv (createContact s0 email phoneNumber none .primary) := by
  intro c hc hlive hsec
  rcases List.mem_append.mp hc with hc0 | hcn
  · obtain ⟨q, hq, hlid, hqprim, hqlive⟩ := hhop c hc0 hlive hsec
    exact ⟨q, List.mem_append_left _ hq, hlid, hqprim, hqlive⟩
  · rw [List.mem_singleton] at hcn
    subst hcn
    cases hsec

theorem OneHop_after_updates (s0 : Store) (u : Contact) (rest : List Contact)
    (base US : List Contact)
    (hwf : Store.WF s0) (hroot : PrimaryRootInv s0) (hhop : OneHopInv s0)
    (humem : u ∈ s0.contacts) (hulive : u.deletedAt = none)
    (huprim : u.linkPrecedence = .primary)
    (hrestf : ∀ d ∈ rest, d ∈ s0.contacts ∧ d.deletedAt = none ∧
      d.linkPrecedence = .primary)
    (hbase : ∀ r ∈ base, r ∈ s0.contacts ∨
      (r.linkedId = some u.id ∧ r.linkPrecedence = .secondary ∧ r.id = s0.nextId))
    (hbase_sup : ∀ x ∈ s0.contacts, x ∈ base)
    (hUS_fields : ∀ v ∈ US, v.linkedId = some u.id ∧ v.linkPrecedence = .secondary)
    (hUS_sub : ∀ v ∈ US, v ∈ demotionUpdates s0 u.id rest ∨ v.id = s0.nextId)
    (hUS_sup : ∀ v ∈ demotionUpdates s0 u.id rest, v ∈ US)
    (hno_u : ∀ v ∈ US, v.id ≠ u.id) :
    ∀ c' ∈ base.map (applyAll US), c'.deletedAt = none →
      c'.linkPrecedence = .secondary →
      ∃ q ∈ base.map (applyAll US), c'.linkedId = some q.id ∧
        q.linkPrecedence = .primary ∧ q.deletedAt = none := by
  have huu : applyAll US u = u := applyAll_of_no_match US u hno_u
  have huQ : u ∈ base.map (applyAll US) := by
    have h0 := List.mem_map_of_mem (applyAll US) (hbase_sup u humem)
    rw [huu] at h0
    exact h0
  intro c' hc' hlive hsec
  obtain ⟨r, hr, rfl⟩ := List.mem_map.mp hc'
  by_cases hmatch : ∃ v ∈ US, v.id = r.id
  · obtain ⟨hl, _⟩ := applyAll_prop u.id US r hUS_fields hmatch
    exact ⟨u, huQ, by rw [hl], huprim, hulive⟩
  · have hrr : applyAll US r = r :=
      applyAll_of_no_match US r fun v hv hvid => hmatch ⟨v, hv, hvid⟩
    rw [hrr] at hlive hsec ⊢
    rcases hbase r hr with hr0 | ⟨hlinked, _, _⟩
    · obtain ⟨q, hq, hlid, hqprim, hqlive⟩ := hhop r hr0 hlive hsec
      by_cases hqmatch : ∃ v ∈ US, v.id = q.id
      · exfalso
        obtain ⟨v, hv, hvid⟩ := hqmatch
        rcases hUS_sub v hv with hvdem | hvnc
        · rw [mem_demotionUpdates] at hvdem
          rcases hvdem with ⟨d, hd, rfl⟩ | ⟨d, hd, cc, hcc, hpcc, rfl⟩
          · have hdq : d = q := nodupIds_eq_of_id_eq hwf.1 (hrestf d hd).1 hq hvid
            subst hdq
            have hrentry : ({ r with linkedId := some u.id })
                ∈ demotionUpdates s0 u.id rest := by
              rw [mem_demotionUpdates]
              refine Or.inr ⟨d, hd, r, hr0, ?_, rfl⟩
              simp [hlid, hlive]
            exact hmatch ⟨{ r with linkedId := some u.id }, hUS_sup _ hrentry, rfl⟩
          · have hccq : cc = q := nodupIds_eq_of_id_eq hwf.1 hcc hq hvid
            subst hccq
            rw [Bool.and_eq_true] at hpcc
            have hcclid : cc.linkedId = some d.id := by simpa using hpcc.1
            have hcclive : cc.deletedAt = none := by simpa using hpcc.2
            have h0 := hroot cc hcc hcclive hqprim
            rw [h0] at hcclid
            cases hcclid
        · have hqlt : q.id < s0.nextId := (hwf.2.1 q hq).2.1
          omega
      · have hqq : applyAll US q = q :=
          applyAll_of_no_match US q fun v hv hvid => hqmatch ⟨v, hv, hvid⟩
        have hqQ : q ∈ base.map (applyAll US) := by
          have h0 := List.mem_map_of_mem (applyAll US) (hbase_sup q hq)
          rw [hqq] at h0
          exact h0
        exact ⟨q, hqQ, hlid, hqprim, hqlive⟩
    · exact ⟨u, huQ, by rw [hlinked], huprim, hulive⟩

theorem mainPath_OneHop (email0 phoneNumber0 : Option String) (s0 : Store)
    (u : Contact) (rest : List Contact)
    (hwf : Store.WF s0) (hroot : PrimaryRootInv s0) (hhop : OneHopInv s0)
    (hu : uniquePrimaryContacts (truthyStr email0) (truthyStr phoneNumber0) s0 = u :: rest) :
    OneHopInv (mainPath s0 u (demotionUpdates s0 u.id rest)
      (truthyStr email0) (truthyStr phoneNumber0)).store := by
  have hmemAll : ∀ x ∈ u :: rest,
      x ∈ s0.contacts ∧ x.deletedAt = none ∧ x.linkPrecedence = .primary := by
    intro x hx
    exact uniquePrimaryContacts_mem _ _ _ x (hu ▸ hx)
  have hids : ((u :: rest).map fun c => c.id).Nodup := by
    rw [← hu]
    exact uniquePrimaryContacts_nodupIds _ _ _
  have humem := hmemAll u (List.mem_cons_self u rest)
  have hrestf : ∀ d ∈ rest,
      d ∈ s0.contacts ∧ d.deletedAt = none ∧ d.linkPrecedence = .primary :=
    fun d hd => hmemAll d (List.mem_cons_of_mem u hd)
  have hufields := humem
  have hno_u0 : ∀ v ∈ demotionUpdates s0 u.id rest, v.id ≠ u.id :=
    demotionUpdates_id_ne s0 u rest hwf hroot humem.1 humem.2.1 humem.2.2 hids
      fun d hd => (hrestf d hd).1
  have hfields0 : ∀ v ∈ demotionUpdates s0 u.id rest,
      v.linkedId = some u.id ∧ v.linkPrecedence = .secondary :=
    demotionUpdates_fields s0 u.id rest hroot
  have hult_lt : u.id < s0.nextId := (hwf.2.1 u humem.1).2.1
  cases hflag : (shouldCreateOf (truthyStr email0) (truthyStr phoneNumber0)
      (allRelatedContactsOf s0 u.id (demotionUpdates s0 u.id rest)) &&
      !(exactMatchExistsOf (truthyStr email0) (truthyStr phoneNumber0)
        (allRelatedContactsOf s0 u.id (demotionUpdates s0 u.id rest)))) with
  | true =>
    obtain ⟨hsc, _⟩ := mainPath_store_create s0 u (demotionUpdates s0 u.id rest)
      (truthyStr email0) (truthyStr phoneNumber0) hflag
    intro c hc hlive hsec
    rw [hsc] at hc
    have hres := OneHop_after_updates s0 u rest
      (s0.contacts ++ [newContact s0 (truthyStr email0) (truthyStr phoneNumber0)
        (some u.id) .secondary])
      (demotionUpdates s0 u.id rest ++
        [newContact s0 (truthyStr email0) (truthyStr phoneNumber0) (some u.id) .secondary])
      hwf hroot hhop humem.1 humem.2.1 humem.2.2 hrestf
      ?_ ?_ ?_ ?_ ?_ ?_ c hc hlive hsec
    · obtain ⟨q, hq, hlid, hqprim, hqlive⟩ := hres
      refine ⟨q, ?_, hlid, hqprim, hqlive⟩
      rw [hsc]
      exact hq
    · intro r hr
      rcases List.mem_append.mp hr with hr0 | hrn
      · exact Or.inl hr0
      · rw [List.mem_singleton] at hrn
        subst hrn
        exact Or.inr ⟨rfl, rfl, rfl⟩
    · intro x hx
      exact List.mem_append_left _ hx
    · intro v hv
      rcases List.mem_append.mp hv with hv0 | hvn
      · exact hfields0 v hv0
      · rw [List.mem_singleton] at hvn
        subst hvn
        exact ⟨rfl, rfl⟩
    · intro v hv
      rcases List.mem_append.mp hv with hv0 | hvn
      · exact Or.inl hv0
      · rw [List.mem_singleton] at hvn
        subst hvn
        exact Or.inr rfl
    · intro v hv
      exact List.mem_append_left _ hv
    · intro v hv
      rcases List.mem_append.mp hv with hv0 | hvn
      · exact hno_u0 v hv0
      · rw [List.mem_singleton] at hvn
        subst hvn
        show s0.nextId ≠ u.id
        omega
  | false =>
    obtain ⟨hsc, _⟩ := mainPath_store_nocreate s0 u (demotionUpdates s0 u.id rest)
      (truthyStr email0) (truthyStr phoneNumber0) hflag
    intro c hc hlive hsec
    rw [hsc] at hc
    have hres := OneHop_after_updates s0 u rest s0.contacts
      (demotionUpdates s0 u.id rest)
      hwf hroot hhop humem.1 humem.2.1 humem.2.2 hrestf
      (fun r hr => Or.inl hr) (fun x hx => hx) hfields0
      (fun v hv => Or.inl hv) (fun v hv => hv) hno_u0 c hc hlive hsec
    obtain ⟨q, hq, hlid, hqprim, hqlive⟩ := hres
    refine ⟨q, ?_, hlid, hqprim, hqlive⟩
    rw [hsc]
    exact hq

/-- Claim C2 (confirmed): identify preserves the one-hop invariant — from
any well-formed store satisfying the data-model invariants, after a
completed call every non-deleted secondary's `linkedId` points at a
non-deleted primary row, never at another secondary; in particular every
secondary of a primary demoted during the call has been re-pointed at the
ultimate primary within the same call. -/
theorem C2_theorem (email0 phoneNumber0 : Option String) (s0 : Store)
    (hwf : Store.WF s0) (hroot : PrimaryRootInv s0) (hhop : OneHopInv s0) :
    OneHopInv (identifyContact email0 phoneNumber0 s0).store := by
  cases hm : matchingContacts (truthyStr email0) (truthyStr phoneNumber0) s0 with
  | nil =>
    have : identifyContact email0 phoneNumber0 s0 =
        freshPrimaryResult s0 (truthyStr email0) (truthyStr phoneNumber0) := by
      unfold identifyContact
      split
      · rfl
      · rename_i m0 ms h0
        rw [h0] at hm
        cases hm
    rw [this]
    exact freshPrimary_OneHop s0 _ _ hhop
  | cons m0 ms =>
    have hm0 : m0 ∈ matchingContacts (truthyStr email0) (truthyStr phoneNumber0) s0 := by
      rw [hm]
      exact List.mem_cons_self m0 ms
    obtain ⟨hm0mem, hm0live⟩ :=
      matchingContacts_live (truthyStr email0) (truthyStr phoneNumber0) s0 m0 hm0
    have hne : uniquePrimaryContacts (truthyStr email0) (truthyStr phoneNumber0) s0 ≠ [] := by
      unfold uniquePrimaryContacts
      rw [hm]
      intro hcontra
      rw [insertionSort_eq_nil_iff] at hcontra
      exact dedupById_ne_nil _
        (primaryContactsOf_ne_nil s0 m0 ms hm0mem hm0live hwf hhop) hcontra
    cases hup : uniquePrimaryContacts (truthyStr email0) (truthyStr phoneNumber0) s0 with
    | nil => exact absurd hup hne
    | cons u rest =>
      rw [identify_eq_mainPath email0 phoneNumber0 s0 u rest hup]
      exact mainPath_OneHop email0 phoneNumber0 s0 u rest hwf hroot hhop hup

/-- Witness for C2 on `S1`, whose merge demotes a primary and re-points its
secondary. -/
theorem C2_witness :
    Store.WF S1 ∧ PrimaryRootInv S1 ∧ OneHopInv S1 ∧
    OneHopInv (identifyContact (some "x@x.com") (some "7") S1).store :=
  ⟨by decide, by decide, by decide,
   C2_theorem (some "x@x.com") (some "7") S1 (by decide) (by decide) (by decide)⟩

/-! ### Result-builder lemmas -/

theorem mem_addTruthy (init : List String) (o : Option String) (x : String) :
    x ∈ addTruthy init o ↔ x ∈ init ∨ (o = some x ∧ x ≠ "") := by
  cases o with
  | none => simp [addTruthy]
  | some e =>
    simp only [addTruthy]
    by_cases he : e = ""
    · rw [if_pos he]
      subst he
      constructor
      · exact fun h => Or.inl h
      · rintro (h | ⟨h1, h2⟩)
        · exact h
        · injection h1 with h1'
          exact absurd h1'.symm h2
    · rw [if_neg he, mem_setInsert]
      constructor
      · rintro (h | h)
        · subst h
          exact Or.inr ⟨rfl, he⟩
        · exact Or.inl h
      · rintro (h | ⟨h1, h2⟩)
        · exact Or.inr h
        · injection h1 with h1'
          exact Or.inl h1'.symm

theorem nodup_addTruthy (init : List String) (o : Option String)
    (h : init.Nodup) : (addTruthy init o).Nodup := by
  cases o with
  | none => exact h
  | some e =>
    simp only [addTruthy]
    by_cases he : e = ""
    · rw [if_pos he]
      exact h
    · rw [if_neg he]
      exact nodup_setInsert e init h

theorem mem_collectSet (cond : Contact → Bool) (g : Contact → Option String)
    (init : List String) (l : List Contact) (x : String) :
    x ∈ collectSet cond g init l ↔
      x ∈ init ∨ ∃ c ∈ l, cond c = true ∧ g c = some x ∧ x ≠ "" := by
  induction l generalizing init with
  | nil => simp [collectSet]
  | cons c cs ih =>
    simp only [collectSet]
    rw [ih]
    by_cases hc : cond c = true
    · rw [if_pos hc, mem_addTruthy]
      constructor
      · rintro ((h | ⟨h1, h2⟩) | ⟨d, hd, h1, h2, h3⟩)
        · exact Or.inl h
        · exact Or.inr ⟨c, List.mem_cons_self c cs, hc, h1, h2⟩
        · exact Or.inr ⟨d, List.mem_cons_of_mem c hd, h1, h2, h3⟩
      · rintro (h | ⟨d, hd, h1, h2, h3⟩)
        · exact Or.inl (Or.inl h)
        · rcases List.mem_cons.mp hd with rfl | hd'
          · exact Or.inl (Or.inr ⟨h2, h3⟩)
          · exact Or.inr ⟨d, hd', h1, h2, h3⟩
    · rw [if_neg hc]
      constructor
      · rintro (h | ⟨d, hd, h1, h2, h3⟩)
        · exact Or.inl h
        · exact Or.inr ⟨d, List.mem_cons_of_mem c hd, h1, h2, h3⟩
      · rintro (h | ⟨d, hd, h1, h2, h3⟩)
        · exact Or.inl h
        · rcases List.mem_cons.mp hd with rfl | hd'
          · exact absurd h1 hc
          · exact Or.inr ⟨d, hd', h1, h2, h3⟩

theorem nodup_collectSet (cond : Contact → Bool) (g : Contact → Option String)
    (init : List String) (l : List Contact) (h : init.Nodup) :
    (collectSet cond g init l).Nodup := by
  induction l generalizing init with
  | nil => exact h
  | cons c cs ih =>
    simp only [collectSet]
    apply ih
    split
    · exact nodup_addTruthy init _ h
    · exact h

theorem mem_collectIds (cond : Contact → Bool) (init : List Nat)
    (l : List Contact) (i : Nat) :
    i ∈ collectIds cond init l ↔
      i ∈ init ∨ ∃ c ∈ l, cond c = true ∧ c.id = i := by
  induction l generalizing init with
  | nil => simp [collectIds]
  | cons c cs ih =>
    simp only [collectIds]
    rw [ih]
    by_cases hc : cond c = true
    · rw [if_pos hc, mem_setInsert]
      constructor
      · rintro ((h | h) | ⟨d, hd, h1, h2⟩)
        · subst h
          exact Or.inr ⟨c, List.mem_cons_self c cs, hc, rfl⟩
        · exact Or.inl h
        · exact Or.inr ⟨d, List.mem_cons_of_mem c hd, h1, h2⟩
      · rintro (h | ⟨d, hd, h1, h2⟩)
        · exact Or.inl (Or.inr h)
        · rcases List.mem_cons.mp hd with rfl | hd'
          · exact Or.inl (Or.inl h2.symm)
          · exact Or.inr ⟨d, hd', h1, h2⟩
    · rw [if_neg hc]
      constructor
      · rintro (h | ⟨d, hd, h1, h2⟩)
        · exact Or.inl h
        · exact Or.inr ⟨d, List.mem_cons_of_mem c hd, h1, h2⟩
      · rintro (h | ⟨d, hd, h1, h2⟩)
        · exact Or.inl h
        · rcases List.mem_cons.mp hd with rfl | hd'
          · exact absurd h1 hc
          · exact Or.inr ⟨d, hd', h1, h2⟩

theorem nodup_collectIds (cond : Contact → Bool) (init : List Nat)
    (l : List Contact) (h : init.Nodup) :
    (collectIds cond init l).Nodup := by
  induction l generalizing init with
  | nil => exact h
  | cons c cs ih =>
    simp only [collectIds]
    apply ih
    split
    · exact nodup_setInsert c.id init h
    · exact h

theorem dedupFirstAux_eq_self {α : Type} [DecidableEq α] (seen : List α)
    (l : List α) (hdisj : ∀ x ∈ l, x ∉ seen) (hn : l.Nodup) :
    dedupFirstAux seen l = l := by
  induction l generalizing seen with
  | nil => rfl
  | cons x xs ih =>
    simp only [dedupFirstAux]
    rw [if_neg (hdisj x (List.mem_cons_self x xs))]
    rw [List.nodup_cons] at hn
    congr 1
    apply ih
    · intro y hy hys
      rcases List.mem_cons.mp hys with rfl | hys'
      · exact hn.1 hy
      · exact hdisj y (List.mem_cons_of_mem x hy) hys'
    · exact hn.2

theorem dedupFirst_eq_self {α : Type} [DecidableEq α] (l : List α) (hn : l.Nodup) :
    dedupFirst l = l :=
  dedupFirstAux_eq_self [] l (fun x _ => List.not_mem_nil x) hn

theorem sorted_lt_of_le_nodup {α : Type} [LinearOrder α] {l : List α}
    (hs : l.Sorted (fun a b => a ≤ b)) (hn : l.Nodup) :
    l.Sorted (fun a b => a < b) :=
  (List.Pairwise.and hs hn).imp fun h => lt_of_le_of_ne h.1 h.2

theorem mem_truthyToList (o : Option String) (x : String) :
    x ∈ truthyToList o ↔ o = some x ∧ x ≠ "" := by
  cases o with
  | none => simp [truthyToList]
  | some e =>
    simp only [truthyToList]
    by_cases he : e = ""
    · rw [if_pos he]
      subst he
      constructor
      · intro h
        exact absurd h (List.not_mem_nil x)
      · rintro ⟨h1, h2⟩
        injection h1 with h1'
        exact absurd h1'.symm h2
    · rw [if_neg he]
      constructor
      · intro h
        rw [List.mem_singleton] at h
        subst h
        exact ⟨rfl, he⟩
      · rintro ⟨h1, h2⟩
        injection h1 with h1'
        rw [List.mem_singleton]
        exact h1'.symm

theorem nodup_truthyToList (o : Option String) : (truthyToList o).Nodup := by
  cases o with
  | none => exact List.nodup_nil
  | some e =>
    simp only [truthyToList]
    by_cases he : e = ""
    · rw [if_pos he]
      exact List.nodup_nil
    · rw [if_neg he]
      exact List.nodup_singleton e

theorem includeMember_ne (p : Contact) (all : List Contact) (c : Contact)
    (h : includeMember p all c = true) : c.id ≠ p.id := by
  unfold includeMember at h
  rw [Bool.and_eq_true] at h
  intro he
  rw [Bool.not_eq_true'] at h
  have h1 := h.1
  simp [he] at h1

theorem includeMember_of_link (p : Contact) (all : List Contact) (c : Contact)
    (hlink : c.linkedId = some p.id) (hne : c.id ≠ p.id) :
    includeMember p all c = true := by
  unfold includeMember
  simp [hne, hlink]

theorem fieldList_spec (p : Contact) (all : List Contact)
    (g : Contact → Option String) (pf : Option String)
    (hlink : ∀ c ∈ all, c.id = p.id ∨ c.linkedId = some p.id)
    (hclean : ∀ c ∈ all, g c ≠ some "") (hpclean : pf ≠ some "") :
    (dedupFirst (truthyToList pf ++ strSort
        ((collectSet (includeMember p all) g (truthyToList pf) all).filter
          fun e => !(some e == pf)))).Nodup ∧
    (∀ e, e ∈ dedupFirst (truthyToList pf ++ strSort
        ((collectSet (includeMember p all) g (truthyToList pf) all).filter
          fun e => !(some e == pf))) ↔
      (pf = some e ∨ ∃ c ∈ all, c.id ≠ p.id ∧ g c = some e)) ∧
    (∃ tail, dedupFirst (truthyToList pf ++ strSort
        ((collectSet (includeMember p all) g (truthyToList pf) all).filter
          fun e => !(some e == pf))) = truthyToList pf ++ tail ∧
      tail.Sorted fun a b => a < b) := by
  have hSnodup : (collectSet (includeMember p all) g (truthyToList pf) all).Nodup :=
    nodup_collectSet _ _ _ _ (nodup_truthyToList pf)
  have hFnodup : ((collectSet (includeMember p all) g (truthyToList pf) all).filter
      fun e => !(some e == pf)).Nodup := List.Nodup.filter _ hSnodup
  have hTperm := List.perm_insertionSort (fun a b : String => a ≤ b)
    ((collectSet (includeMember p all) g (truthyToList pf) all).filter
      fun e => !(some e == pf))
  have hTnodup : (strSort ((collectSet (includeMember p all) g (truthyToList pf) all).filter
      fun e => !(some e == pf))).Nodup := by
    unfold strSort
    exact hTperm.symm.nodup hFnodup
  have hTle : (strSort ((collectSet (includeMember p all) g (truthyToList pf) all).filter
      fun e => !(some e == pf))).Sorted fun a b => a ≤ b := by
    unfold strSort
    exact List.sorted_insertionSort _ _
  have hTlt := sorted_lt_of_le_nodup hTle hTnodup
  have hmemT : ∀ x, x ∈ strSort ((collectSet (includeMember p all) g (truthyToList pf) all).filter
      fun e => !(some e == pf)) ↔
      x ∈ collectSet (includeMember p all) g (truthyToList pf) all ∧ some x ≠ pf := by
    intro x
    unfold strSort
    rw [mem_insertionSort, List.mem_filter]
    constructor
    · rintro ⟨h1, h2⟩
      refine ⟨h1, ?_⟩
      rw [Bool.not_eq_true'] at h2
      simpa using h2
    · rintro ⟨h1, h2⟩
      refine ⟨h1, ?_⟩
      rw [Bool.not_eq_true']
      simpa using h2
  have hdisj : ∀ x ∈ truthyToList pf,
      x ∉ strSort ((collectSet (includeMember p all) g (truthyToList pf) all).filter
        fun e => !(some e == pf)) := by
    intro x hx hxT
    rw [mem_truthyToList] at hx
    rw [hmemT] at hxT
    exact hxT.2 hx.1.symm
  have hnodup : (truthyToList pf ++ strSort
      ((collectSet (includeMember p all) g (truthyToList pf) all).filter
        fun e => !(some e == pf))).Nodup := by
    rw [List.nodup_append]
    exact ⟨nodup_truthyToList pf, hTnodup, hdisj⟩
  have hL := dedupFirst_eq_self _ hnodup
  rw [hL]
  refine ⟨hnodup, ?_, ?_⟩
  · intro e
    rw [List.mem_append, mem_truthyToList, hmemT, mem_collectSet, mem_truthyToList]
    constructor
    · rintro (⟨h1, _⟩ | ⟨(⟨h1, _⟩ | ⟨c, hc, hinc, hg, hne⟩), hne2⟩)
      · exact Or.inl h1
      · exact Or.inl h1
      · exact Or.inr ⟨c, hc, includeMember_ne p all c hinc, hg⟩
    · rintro (h | ⟨c, hc, hcne, hg⟩)
      · have hne : e ≠ "" := by
          intro he
          subst he
          exact hpclean h
        exact Or.inl ⟨h, hne⟩
      · have hne : e ≠ "" := by
          intro he
          subst he
          exact hclean c hc (by rw [hg])
        by_cases hpe : pf = some e
        · exact Or.inl ⟨hpe, hne⟩
        · refine Or.inr ⟨Or.inr ⟨c, hc, ?_, hg, hne⟩, fun h2 => hpe h2.symm⟩
          rcases hlink c hc with h0 | h0
          · exact absurd h0 hcne
          · exact includeMember_of_link p all c h0 hcne
  · exact ⟨_, rfl, hTlt⟩

/-- Claim C9 (confirmed): in an identify result built over a one-hop cluster
around `p`, the `emails` list holds the primary's own email first (when
present) followed by the other distinct cluster emails in strictly ascending
order, each exactly once; `phoneNumbers` obeys the same rule; and
`secondaryContactIds` lists the id of every non-primary cluster member
exactly once in strictly ascending order — no list repeats a value and no
member is omitted. -/
theorem C9_theorem (p : Contact) (all : List Contact)
    (hlink : ∀ c ∈ all, c.id = p.id ∨ c.linkedId = some p.id)
    (hcleanE : ∀ c ∈ all, c.email ≠ some "")
    (hcleanP : ∀ c ∈ all, c.phoneNumber ≠ some "")
    (hpE : p.email ≠ some "") (hpP : p.phoneNumber ≠ some "") :
    ((formatResponse p all).contact.emails.Nodup ∧
     (∀ e, e ∈ (formatResponse p all).contact.emails ↔
       (p.email = some e ∨ ∃ c ∈ all, c.id ≠ p.id ∧ c.email = some e)) ∧
     (∃ tail, (formatResponse p all).contact.emails = truthyToList p.email ++ tail ∧
       tail.Sorted fun a b => a < b)) ∧
    ((formatResponse p all).contact.phoneNumbers.Nodup ∧
     (∀ e, e ∈ (formatResponse p all).contact.phoneNumbers ↔
       (p.phoneNumber = some e ∨ ∃ c ∈ all, c.id ≠ p.id ∧ c.phoneNumber = some e)) ∧
     (∃ tail, (formatResponse p all).contact.phoneNumbers =
        truthyToList p.phoneNumber ++ tail ∧
       tail.Sorted fun a b => a < b)) ∧
    ((formatResponse p all).contact.secondaryContactIds.Nodup ∧
     (∀ i, i ∈ (formatResponse p all).contact.secondaryContactIds ↔
       ∃ c ∈ all, c.id = i ∧ c.id ≠ p.id) ∧
     (formatResponse p all).contact.secondaryContactIds.Sorted fun a b => a < b) := by
  refine ⟨?_, ?_, ?_⟩
  · exact fieldList_spec p all (fun c => c.email) p.email hlink hcleanE hpE
  · exact fieldList_spec p all (fun c => c.phoneNumber) p.phoneNumber hlink hcleanP hpP
  · have hInodup : (idSetOf p all).Nodup := nodup_collectIds _ _ _ List.nodup_nil
    have hIperm := List.perm_insertionSort (fun a b : Nat => a ≤ b) (idSetOf p all)
    have hSnodup : (natSort (idSetOf p all)).Nodup := by
      unfold natSort
      exact hIperm.symm.nodup hInodup
    have hSle : (natSort (idSetOf p all)).Sorted fun a b => a ≤ b := by
      unfold natSort
      exact List.sorted_insertionSort _ _
    refine ⟨hSnodup, ?_, sorted_lt_of_le_nodup hSle hSnodup⟩
    intro i
    show i ∈ natSort (idSetOf p all) ↔ _
    unfold natSort
    rw [mem_insertionSort]
    unfold idSetOf
    rw [mem_collectIds]
    constructor
    · rintro (h | ⟨c, hc, hinc, hid⟩)
      · exact absurd h (List.not_mem_nil i)
      · exact ⟨c, hc, hid, includeMember_ne p all c hinc⟩
    · rintro ⟨c, hc, hid, hne⟩
      refine Or.inr ⟨c, hc, ?_, hid⟩
      rcases hlink c hc with h0 | h0
      · exact absurd h0 hne
      · exact includeMember_of_link p all c h0 hne

/-- Witness for C9 on the concrete cluster `C9all` around `C9p`. -/
theorem C9_witness :
    ((∀ c ∈ C9all, c.id = C9p.id ∨ c.linkedId = some C9p.id) ∧
     (∀ c ∈ C9all, c.email ≠ some "") ∧
     (∀ c ∈ C9all, c.phoneNumber ≠ some "") ∧
     C9p.email ≠ some "" ∧ C9p.phoneNumber ≠ some "") ∧
    (((formatResponse C9p C9all).contact.emails.Nodup ∧
      (∀ e, e ∈ (formatResponse C9p C9all).contact.emails ↔
        (C9p.email = some e ∨ ∃ c ∈ C9all, c.id ≠ C9p.id ∧ c.email = some e)) ∧
      (∃ tail, (formatResponse C9p C9all).contact.emails =
         truthyToList C9p.email ++ tail ∧
        tail.Sorted fun a b => a < b)) ∧
     ((formatResponse C9p C9all).contact.phoneNumbers.Nodup ∧
      (∀ e, e ∈ (formatResponse C9p C9all).contact.phoneNumbers ↔
        (C9p.phoneNumber = some e ∨ ∃ c ∈ C9all, c.id ≠ C9p.id ∧ c.phoneNumber = some e)) ∧
      (∃ tail, (formatResponse C9p C9all).contact.phoneNumbers =
         truthyToList C9p.phoneNumber ++ tail ∧
        tail.Sorted fun a b => a < b)) ∧
     ((formatResponse C9p C9all).contact.secondaryContactIds.Nodup ∧
      (∀ i, i ∈ (formatResponse C9p C9all).contact.secondaryContactIds ↔
        ∃ c ∈ C9all, c.id = i ∧ c.id ≠ C9p.id) ∧
      (formatResponse C9p C9all).contact.secondaryContactIds.Sorted fun a b => a < b)) :=
  ⟨⟨by decide, by decide, by decide, by decide, by decide⟩,
   C9_theorem C9p C9all (by decide) (by decide) (by decide) (by decide) (by decide)⟩

/-! ### Embedding sanity checks against the specification's worked scenarios -/

/-- Scenario A: `identify(email = "a@x.com")` on an empty store creates
contact 1 as a primary and reports it alone. -/
theorem scenarioA :
    (identifyContact (some "a@x.com") none emptyStore).response =
      { contact := { primaryContatctId := 1, emails := ["a@x.com"],
                     phoneNumbers := [], secondaryContactIds := [] } } ∧
    (identifyContact (some "a@x.com") none emptyStore).store.contacts =
      [{ id := 1, email := some "a@x.com", phoneNumber := none, linkedId := none,
         linkPrecedence := .primary, createdAt := 1, deletedAt := none }] := by
  decide

/-- Scenario B: the follow-up `identify(email = "a@x.com", phone = "111")`
creates contact 2 as a secondary of 1 and reports the consolidated view. -/
theorem scenarioB :
    (identifyContact (some "a@x.com") (some "111")
      (identifyContact (some "a@x.com") none emptyStore).store).response =
      { contact := { primaryContatctId := 1, emails := ["a@x.com"],
                     phoneNumbers := ["111"], secondaryContactIds := [2] } } ∧
    (identifyContact (some "a@x.com") (some "111")
      (identifyContact (some "a@x.com") none emptyStore).store).store.contacts.length = 2 := by
  decide

/-- Exact-match no-op on a two-field repeat: submitting the same full
fragment again creates nothing, changes nothing and answers identically. -/
theorem scenarioRepeat :
    (identifyContact (some "a@x.com") (some "111")
      (identifyContact (some "a@x.com") (some "111")
        (identifyContact (some "a@x.com") none emptyStore).store).store).store =
      (identifyContact (some "a@x.com") (some "111")
        (identifyContact (some "a@x.com") none emptyStore).store).store ∧
    (identifyContact (some "a@x.com") (some "111")
      (identifyContact (some "a@x.com") (some "111")
        (identifyContact (some "a@x.com") none emptyStore).store).store).response =
      (identifyContact (some "a@x.com") (some "111")
        (identifyContact (some "a@x.com") none emptyStore).store).response := by
  decide
